import Mathlib

/-!
# IBM/cap: alert model, feed model and the alert-to-feed aggregation

A shallow embedding of the Go packages `shared`, `cap`, `atom` and
`capship/commands` (the feed generator and the HTTP handlers) and of the
`alert` command of `captn`, followed by theorems about them.

Conventions of the embedding:
* a Go slice is a `List` (a nil slice and an empty slice are both `[]`);
* a Go struct is a `structure` whose fields default to the Go zero value, so a
  Go composite literal that names some fields reads the same in Lean;
* a Go `error` value is a `GoError` carrying its message; the result pair
  `(*atom.Feed, error)` of the feed generator is kept as a pair
  `Option Feed × Option GoError` (`none` is `nil`), the result pairs of the
  calls it makes are `Except GoError _`;
* a `for ... range` loop that only accumulates is a `List.foldl` of its body;
  a loop with an early `return` is a structural recursion on the list;
* a run-time fault is a result of its own, distinct from every returned
  value: `Outcome.indexOutOfRange` for an index out of range,
  `Outcome.nilDereference` for a field read through a nil pointer;
* a Go field called `Type` is `Type_` (a reserved word in Lean);
* the file system, the XML decoder and the clock are parameters (`World`);
* what the code calls of the Go standard library (functions of `strings`,
  and `Time.Format` and `time.Parse` for the layout `time.RFC3339`) is modelled
  in the namespaces `strings` and `time`.
-/

/-- The value of a Go `error`: the message it carries. -/
structure GoError where
  msg : String
  deriving DecidableEq

/-- What a call does: it returns a value, or the Go runtime faults on an
index that is out of range or on a nil pointer that is dereferenced. -/
inductive Outcome (α : Type) where
  | returned (a : α) : Outcome α
  | indexOutOfRange : Outcome α
  | nilDereference : Outcome α
  deriving DecidableEq

/-- The bytes of a file. -/
abbrev Bytes := List UInt8

namespace xml

/-- Go `xml.Name`. -/
structure Name where
  Space : String := ""
  Local : String := ""
  deriving DecidableEq

end xml

/-! ## Go standard library: strings -/

namespace strings

/-- Go `strings.Split(s, sep)` for a separator `sep` of one character: the
substrings of `s` between the occurrences of `sep`, in order; a string
without `sep` (the empty string too) gives the one-element list of itself. -/
def Split (s : String) (sep : Char) : List String :=
  (s.data.splitOn sep).map String.mk

/-- Go `strings.ToLower(s)`: every character of `s` mapped to its lower case.
The mapping of a character, Go `unicode.ToLower`, is the parameter `lower`. -/
def ToLower (lower : Char → Char) (s : String) : String :=
  String.mk (s.data.map lower)

/-- Go `strings.Contains(s, substr)`: `substr` occurs within `s`. -/
def Contains (s substr : String) : Bool :=
  decide (substr.data <:+: s.data)

/-- Go `strings.TrimPrefix(s, pre)`: `s` without the leading `pre` when it
starts with it, `s` otherwise. -/
def TrimPrefix (s pre : String) : String :=
  if pre.data.isPrefixOf s.data then String.mk (s.data.drop pre.data.length) else s

end strings

/-- Go `string(b)` for a byte slice `b`: the same bytes, each held as the
character of its value. -/
def bytesToString (b : Bytes) : String :=
  String.mk (b.map (fun u => Char.ofNat u.toNat))

/-! ## Go standard library: time, for the layout RFC3339

The functions of this section follow `time/format.go` of the Go distribution
(Go 1.20 and later), specialised to the layout `time.RFC3339`, the only layout
this repository passes. A `time.Time` is held as the calendar fields and the
zone offset that its methods `Date`, `Clock` and `Zone` report. The text of a
parse error is abridged. -/

namespace time

/-- Go `time.RFC3339`. -/
def RFC3339 : String := "2006-01-02T15:04:05Z07:00"

/-- Go `time.Time`, as what `Date()`, `Clock()`, `Nanosecond()` and `Zone()`
report: `Offset` is in seconds east of UTC. -/
structure Time where
  Year : Int
  Month : Nat
  Day : Nat
  Hour : Nat
  Minute : Nat
  Second : Nat
  Nanosecond : Nat := 0
  Offset : Int := 0
  deriving DecidableEq

/-- Go `isLeap`. -/
def isLeap (year : Int) : Bool :=
  decide (year % 4 = 0 ∧ (year % 100 ≠ 0 ∨ year % 400 = 0))

/-- Go `daysBefore`: the days of a non-leap year before the end of month `m`. -/
def daysBefore : List Nat :=
  [0, 31, 59, 90, 120, 151, 181, 212, 243, 273, 304, 334, 365]

/-- Go `daysIn`. -/
def daysIn (m : Nat) (year : Int) : Nat :=
  if m = 2 ∧ isLeap year = true then 29
  else daysBefore.getD m 0 - daysBefore.getD (m - 1) 0

/-- The fields of a `time.Time` are those of a date of the calendar and a
time of day: every value of the Go type satisfies this. -/
def Time.Valid (t : Time) : Prop :=
  1 ≤ t.Month ∧ t.Month ≤ 12 ∧ 1 ≤ t.Day ∧ t.Day ≤ daysIn t.Month t.Year
    ∧ t.Hour < 24 ∧ t.Minute < 60 ∧ t.Second < 60 ∧ t.Nanosecond < 1000000000

instance (t : Time) : Decidable t.Valid := by
  unfold Time.Valid
  infer_instance

/-- Go `byte('0' + u)` for a decimal digit `u`. -/
def digitChar (u : Nat) : Char := Char.ofNat (48 + u)

/-- The digit loop of Go `appendInt`: the decimal digits of `u`, most
significant first, in a buffer of as many bytes as the first argument. -/
def appendInt.digits : Nat → Nat → List Char
  | 0, _ => []
  | n + 1, u =>
    if 10 ≤ u then appendInt.digits n (u / 10) ++ [digitChar (u % 10)]
    else [digitChar u]

/-- Go `appendInt`: a minus sign for a negative `x`, then the decimal digits
of its magnitude (from a 20-byte buffer) padded with zeros to `width`. -/
def appendInt (x : Int) (width : Nat) : List Char :=
  let ds := appendInt.digits 20 x.natAbs
  (if x < 0 then ['-'] else []) ++ List.replicate (width - ds.length) '0' ++ ds

/-- The zone part of `appendFormatRFC3339` (layout element `Z07:00`): `Z` for
the offset zero, otherwise the sign and the offset truncated to minutes. -/
def formatZone (offset : Int) : List Char :=
  if offset = 0 then ['Z']
  else
    let zone := Int.tdiv offset 60
    let sign := if zone < 0 then '-' else '+'
    let zone := if zone < 0 then -zone else zone
    [sign] ++ appendInt (Int.tdiv zone 60) 2 ++ [':'] ++ appendInt (Int.tmod zone 60) 2

/-- Go `t.Format(time.RFC3339)`. -/
def Time.Format (t : Time) : String :=
  String.mk
    (appendInt t.Year 4 ++ ['-'] ++ appendInt t.Month 2 ++ ['-'] ++ appendInt t.Day 2
      ++ ['T'] ++ appendInt t.Hour 2 ++ [':'] ++ appendInt t.Minute 2 ++ [':']
      ++ appendInt t.Second 2 ++ formatZone t.Offset)

/-- Go `isDigit` on one byte. -/
def isDigit (c : Char) : Bool := decide (48 ≤ c.toNat ∧ c.toNat ≤ 57)

/-- Go `int(c - '0')`. -/
def digitVal (c : Char) : Nat := c.toNat - 48

/-- Go `getnum`: a number of two digits, or of one digit when `fixed` is
false and no second digit follows; `none` is `errBad`. -/
def getnum (s : List Char) (fixed : Bool) : Option (Nat × List Char) :=
  match s with
  | [] => none
  | [c0] =>
    if isDigit c0 then (if fixed then none else some (digitVal c0, []))
    else none
  | c0 :: c1 :: rest =>
    if isDigit c0 then
      if isDigit c1 then some (digitVal c0 * 10 + digitVal c1, rest)
      else if fixed then none
      else some (digitVal c0, c1 :: rest)
    else none

/-- The case `stdLongYear` of Go `parse`: exactly four digits. -/
def parseLongYear (value : List Char) : Option (Int × List Char) :=
  match value with
  | c0 :: c1 :: c2 :: c3 :: rest =>
    if isDigit c0 && isDigit c1 && isDigit c2 && isDigit c3 then
      some (((digitVal c0 * 1000 + digitVal c1 * 100 + digitVal c2 * 10
        + digitVal c3 : Nat) : Int), rest)
    else none
  | _ => none

/-- Go `skip` for a prefix of one character that is not a space. -/
def skip (value : List Char) (pre : Char) : Option (List Char) :=
  match value with
  | c :: rest => if c = pre then some rest else none
  | [] => none

/-- Go `commaOrPeriod`. -/
def commaOrPeriod (c : Char) : Bool := c = '.' || c = ','

/-- Go `parseNanoseconds` on the digits that follow the separator: at most
nine digits are read and scaled to nanoseconds. -/
def parseNanoseconds (digits : List Char) : Nat :=
  let kept := digits.take 9
  kept.foldl (fun ns c => ns * 10 + digitVal c) 0 * 10 ^ (9 - kept.length)

/-- The fraction of a second that Go `parse` accepts after the seconds when
the layout has none: a comma or period followed by at least one digit. -/
def parseFraction (value : List Char) : Nat × List Char :=
  match value with
  | c0 :: c1 :: rest =>
    if commaOrPeriod c0 && isDigit c1 then
      (parseNanoseconds ((c1 :: rest).takeWhile isDigit), (c1 :: rest).dropWhile isDigit)
    else (0, value)
  | _ => (0, value)

/-- The case `stdISO8601ColonTZ` of Go `parse` (layout element `Z07:00`): `Z`
for UTC, or a sign, two digits, a colon and two digits; the offset is in
seconds. -/
def parseZone (value : List Char) : Except GoError (Int × List Char) :=
  match value with
  | 'Z' :: rest => .ok (0, rest)
  | sign :: h0 :: h1 :: colon :: m0 :: m1 :: rest =>
    if colon ≠ ':' then .error { msg := "parsing time: cannot parse" }
    else
      match getnum [h0, h1] true, getnum [m0, m1] true with
      | some (hr, _), some (mm, _) =>
        if 24 < hr then .error { msg := "parsing time: time zone offset hour out of range" }
        else if 60 < mm then
          .error { msg := "parsing time: time zone offset minute out of range" }
        else
          let zoneOffset : Int := (((hr * 60 + mm) * 60 : Nat) : Int)
          if sign = '+' then .ok (zoneOffset, rest)
          else if sign = '-' then .ok (-zoneOffset, rest)
          else .error { msg := "parsing time: cannot parse" }
      | _, _ => .error { msg := "parsing time: cannot parse" }
  | _ => .error { msg := "parsing time: cannot parse" }

/-- Go `time.Parse(time.RFC3339, value)`: the layout elements in order, each
after its literal prefix, then the check for extra text and the validation of
the day of the month. -/
def Parse (value : String) : Except GoError Time :=
  match parseLongYear value.data with
  | none => .error { msg := "parsing time: cannot parse" }
  | some (year, v) =>
  match (skip v '-').bind (fun v => getnum v true) with
  | none => .error { msg := "parsing time: cannot parse" }
  | some (month, v) =>
  if month = 0 ∨ 12 < month then .error { msg := "parsing time: month out of range" }
  else
  match (skip v '-').bind (fun v => getnum v true) with
  | none => .error { msg := "parsing time: cannot parse" }
  | some (day, v) =>
  match (skip v 'T').bind (fun v => getnum v false) with
  | none => .error { msg := "parsing time: cannot parse" }
  | some (hour, v) =>
  if 24 ≤ hour then .error { msg := "parsing time: hour out of range" }
  else
  match (skip v ':').bind (fun v => getnum v true) with
  | none => .error { msg := "parsing time: cannot parse" }
  | some (min, v) =>
  if 60 ≤ min then .error { msg := "parsing time: minute out of range" }
  else
  match (skip v ':').bind (fun v => getnum v true) with
  | none => .error { msg := "parsing time: cannot parse" }
  | some (sec, v) =>
  if 60 ≤ sec then .error { msg := "parsing time: second out of range" }
  else
  match parseZone (parseFraction v).2 with
  | .error err => .error err
  | .ok (zoneOffset, v') =>
  if v' ≠ [] then .error { msg := "parsing time: extra text" }
  else if day < 1 ∨ daysIn month year < day then
    .error { msg := "parsing time: day out of range" }
  else
    .ok { Year := year, Month := month, Day := day, Hour := hour, Minute := min,
          Second := sec, Nanosecond := (parseFraction v).1, Offset := zoneOffset }

end time

/-! ## Textual shapes of a timestamp

The two definitions below are not translations of code: they write down, as
recognisers, the shape that the specification calls canonical and the wider
shape that `time.Parse` admits, so that the codec can be compared with them. -/

namespace spec

/-- The shape `YYYY-MM-DDTHH:MM:SS±hh:mm`: digits at the letters, the
punctuation as written, and an explicit sign. -/
def isOffsetTimestamp (s : String) : Bool :=
  match s.data with
  | [y0, y1, y2, y3, c0, mo0, mo1, c1, d0, d1, c2, h0, h1, c3, mi0, mi1, c4, s0, s1,
      sign, zh0, zh1, c5, zm0, zm1] =>
    [y0, y1, y2, y3, mo0, mo1, d0, d1, h0, h1, mi0, mi1, s0, s1, zh0, zh1, zm0, zm1].all
        time.isDigit
      && c0 == '-' && c1 == '-' && c2 == 'T' && c3 == ':' && c4 == ':' && c5 == ':'
      && (sign == '+' || sign == '-')
  | _ => false

/-- The shape `YYYY-MM-DDTHH:MM:SSZ`: the same date and time of day followed
by the letter `Z` instead of a numeric offset. -/
def isZuluTimestamp (s : String) : Bool :=
  match s.data with
  | [y0, y1, y2, y3, c0, mo0, mo1, c1, d0, d1, c2, h0, h1, c3, mi0, mi1, c4, s0, s1, z] =>
    [y0, y1, y2, y3, mo0, mo1, d0, d1, h0, h1, mi0, mi1, s0, s1].all time.isDigit
      && c0 == '-' && c1 == '-' && c2 == 'T' && c3 == ':' && c4 == ':' && z == 'Z'
  | _ => false

/-- The wider shape: four digits, `-`, two digits, `-`, two digits, `T`, an
hour of one or two digits, `:`, two digits, `:`, two digits, then possibly a
fraction (a period or comma and at least one digit), then `Z` or a sign, two
digits, `:` and two digits. -/
def LayoutForm (s : String) : Prop :=
  ∃ (y0 y1 y2 y3 mo0 mo1 d0 d1 : Char) (hour : List Char) (mi0 mi1 s0 s1 : Char)
    (frac zone : List Char),
    s.data = [y0, y1, y2, y3, '-', mo0, mo1, '-', d0, d1, 'T'] ++ hour
        ++ [':', mi0, mi1, ':', s0, s1] ++ frac ++ zone
      ∧ (∀ c ∈ [y0, y1, y2, y3, mo0, mo1, d0, d1, mi0, mi1, s0, s1] ++ hour,
          time.isDigit c = true)
      ∧ (hour.length = 1 ∨ hour.length = 2)
      ∧ (frac = [] ∨ ∃ sep digits, frac = sep :: digits ∧ (sep = '.' ∨ sep = ',')
          ∧ digits ≠ [] ∧ ∀ c ∈ digits, time.isDigit c = true)
      ∧ (zone = ['Z'] ∨ ∃ sign zh0 zh1 zm0 zm1, zone = [sign, zh0, zh1, ':', zm0, zm1]
          ∧ (sign = '+' ∨ sign = '-')
          ∧ ∀ c ∈ [zh0, zh1, zm0, zm1], time.isDigit c = true)

end spec

/-! ## package shared -/

namespace shared

/-- Go `shared.NamedValue`. -/
structure NamedValue where
  ValueName : String := ""
  Value : String := ""
  deriving DecidableEq

/-- Go `shared.TimeStr`: a string type. -/
abbrev TimeStr := String

/-- Go `shared.Search`: the loop returns at the first element whose
`ValueName` is `name`; after the loop it returns `""`. -/
def Search : List NamedValue → String → String
  | [], _ => ""
  | element :: rest, name =>
    if element.ValueName = name then element.Value else Search rest name

/-- Go `shared.SearchAll`: `found` starts empty and every element whose
`ValueName` is `name` appends its `Value`. -/
def SearchAll (nv : List NamedValue) (name : String) : List String :=
  nv.foldl
    (fun found element =>
      if element.ValueName = name then found ++ [element.Value] else found)
    []

/-- Go `shared.Time`. -/
def Time (t : time.Time) : TimeStr :=
  t.Format

/-- Go `shared.TimeParse`. -/
def TimeParse (t : TimeStr) : Except GoError time.Time :=
  time.Parse t

end shared

/-! ## package cap -/

namespace cap

abbrev NamedValue := shared.NamedValue
abbrev TimeStr := shared.TimeStr

/-- Go `cap.Resource`. -/
structure Resource where
  XMLName : xml.Name := {}
  ResourceDesc : String := ""
  MIMEType : String := ""
  Size : Int := 0
  URI : String := ""
  DerefURI : String := ""
  Digest : String := ""
  deriving DecidableEq

/-- Go `cap.Area`. -/
structure Area where
  XMLName : xml.Name := {}
  AreaDesc : String := ""
  Polygon : List String := []
  Circle : List String := []
  Geocode : List NamedValue := []
  Altitude : String := ""
  Ceiling : String := ""
  deriving DecidableEq

/-- Go `cap.Info`. -/
structure Info where
  XMLName : xml.Name := {}
  Language : String := ""
  Category : List String := []
  Event : String := ""
  ResponseType : List String := []
  Urgency : String := ""
  Severity : String := ""
  Certainty : String := ""
  Audience : String := ""
  EventCode : List NamedValue := []
  Effective : TimeStr := ""
  Onset : TimeStr := ""
  Expires : TimeStr := ""
  SenderName : String := ""
  Headline : String := ""
  Description : String := ""
  Instruction : String := ""
  Web : String := ""
  Contact : String := ""
  Parameter : List NamedValue := []
  Resource : List Resource := []
  Area : List Area := []
  deriving DecidableEq

/-- Go `cap.Alert`. -/
structure Alert where
  XMLName : xml.Name := {}
  Identifier : String := ""
  Sender : String := ""
  Sent : TimeStr := ""
  Status : String := ""
  MsgType : String := ""
  Source : String := ""
  Scope : String := ""
  Restriction : String := ""
  Addresses : String := ""
  Code : List String := []
  Note : String := ""
  References : List String := []
  Incidents : List String := []
  Info : List Info := []
  deriving DecidableEq

/-- Go `cap.ParseAlert`: `xml.Unmarshal` into a fresh `Alert`; on an error
the result is `(nil, err)`, otherwise `(&alert, nil)`. The decoder of
`encoding/xml` is the parameter `unmarshal`; the two shapes of the result
pair are the two constructors of `Except`. -/
def ParseAlert (unmarshal : Bytes → Except GoError Alert) (xmlData : Bytes) :
    Except GoError Alert :=
  match unmarshal xmlData with
  | .error err => .error err
  | .ok alert => .ok alert

/-- Go `cap.Alert11`: the `Alert` it embeds, and the root name of CAP 1.1. -/
structure Alert11 where
  Alert : Alert := {}
  XMLName : xml.Name := {}
  deriving DecidableEq

/-- Go `cap.Time`. -/
def Time (t : time.Time) : TimeStr :=
  shared.Time t

/-- Go `cap.TimeParse`. -/
def TimeParse (t : TimeStr) : Except GoError time.Time :=
  shared.TimeParse t

/-! The methods below have a pointer receiver. An accessor returns its value
together with the receiver as the call leaves it; a mutator returns the
receiver as the call leaves it. -/

/-- Go `(*Info).GetParameter`. -/
def Info.GetParameter (info : Info) (name : String) : String × Info :=
  (shared.Search info.Parameter name, info)

/-- Go `(*Info).AddParameter`. -/
def Info.AddParameter (info : Info) (name : String) (value : String) : Info :=
  let param : NamedValue := { ValueName := name, Value := value }
  { info with Parameter := info.Parameter ++ [param] }

/-- Go `(*Area).GetGeocode`. -/
def Area.GetGeocode (a : Area) (name : String) : String × Area :=
  (shared.Search a.Geocode name, a)

/-- Go `(*Area).GetGeocodes`. -/
def Area.GetGeocodes (a : Area) (name : String) : List String × Area :=
  (shared.SearchAll a.Geocode name, a)

/-- Go `(*Area).AddGeocode`. -/
def Area.AddGeocode (a : Area) (name : String) (value : String) : Area :=
  let geocode : NamedValue := { ValueName := name, Value := value }
  { a with Geocode := a.Geocode ++ [geocode] }

end cap

/-! ## package atom -/

namespace atom

abbrev NamedValue := shared.NamedValue
abbrev TimeStr := shared.TimeStr

/-- Go `atom.CommonAttributes`. -/
structure CommonAttributes where
  Base : String := ""
  Lang : String := ""
  deriving DecidableEq

/-- Go `atom.Text`. -/
structure Text extends CommonAttributes where
  Content : String := ""
  Type_ : String := ""
  Src : String := ""
  Body : String := ""
  deriving DecidableEq

/-- Go `atom.Extension`. -/
structure Extension where
  XMLName : xml.Name := {}
  XML : String := ""
  deriving DecidableEq

/-- Go `atom.Person`. -/
structure Person extends CommonAttributes where
  Name : String := ""
  URI : String := ""
  Email : String := ""
  Extension : List Extension := []
  deriving DecidableEq

/-- Go `atom.Link`. -/
structure Link extends CommonAttributes where
  Href : String := ""
  Rel : String := ""
  Type_ : String := ""
  HrefLang : String := ""
  Title : Text := {}
  Length : String := ""
  deriving DecidableEq

/-- Go `atom.Category`. -/
structure Category extends CommonAttributes where
  Content : String := ""
  Term : String := ""
  Scheme : String := ""
  Label : String := ""
  deriving DecidableEq

/-- Go `atom.Generator`. -/
structure Generator extends CommonAttributes where
  Content : String := ""
  URI : String := ""
  Version : String := ""
  deriving DecidableEq

/-- Go `atom.Source`. -/
structure Source where
  ID : String := ""
  Title : Text := {}
  Updated : String := ""
  Author : List Person := []
  Link : List Link := []
  Category : List Category := []
  Contributor : List Person := []
  Generator : Generator := {}
  Icon : String := ""
  Logo : String := ""
  Rights : Text := {}
  SubTitle : Text := {}
  deriving DecidableEq

/-- Go `atom.Geocode`: the two parallel slices. -/
structure Geocode where
  Names : List String := []
  Values : List String := []
  deriving DecidableEq

/-- Go `atom.Entry`. -/
structure Entry extends CommonAttributes where
  XMLName : xml.Name := {}
  ID : String := ""
  Title : Text := {}
  Updated : TimeStr := ""
  Author : List Person := []
  Content : Text := {}
  Link : List Link := []
  Summary : Text := {}
  Category : List Category := []
  Contributor : List Person := []
  Published : TimeStr := ""
  Rights : Text := {}
  Source : List Source := []
  Event : String := ""
  Effective : TimeStr := ""
  Expires : TimeStr := ""
  Status : String := ""
  MsgType : String := ""
  Urgency : String := ""
  Severity : String := ""
  Certainty : String := ""
  AreaDesc : String := ""
  Polygon : List String := []
  Circle : List String := []
  Geocode : Geocode := {}
  Parameter : List NamedValue := []
  Extension : List Extension := []
  deriving DecidableEq

/-- Go `atom.Feed`. -/
structure Feed extends CommonAttributes where
  XMLName : xml.Name := {}
  ID : String := ""
  Title : Text := {}
  Updated : TimeStr := ""
  Author : List Person := []
  Link : List Link := []
  Category : List Category := []
  Contributor : List Person := []
  Generator : Generator := {}
  Icon : String := ""
  Logo : String := ""
  Rights : Text := {}
  SubTitle : Text := {}
  Entries : List Entry := []
  Extension : List Extension := []
  deriving DecidableEq

/-- Go `atom.Time`. -/
def Time (t : time.Time) : TimeStr :=
  shared.Time t

/-- Go `atom.TimeParse`. -/
def TimeParse (t : TimeStr) : Except GoError time.Time :=
  shared.TimeParse t

/-- The loop of `(*Geocode).GetGeocodes` on the names still to visit, `index`
being the index of the first of them: at the first name equal to `name` it
returns `strings.Split(g.Values[index], " ")`, and `g.Values[index]` faults
when `index` is not an index of `g.Values`; when the names are exhausted the
function returns the empty slice. -/
def Geocode.GetGeocodes.range (g : Geocode) (name : String) :
    List String → Nat → Outcome (List String)
  | [], _ => .returned []
  | value :: rest, index =>
    if value = name then
      match g.Values[index]? with
      | some v => .returned (strings.Split v ' ')
      | none => .indexOutOfRange
    else Geocode.GetGeocodes.range g name rest (index + 1)

/-- Go `(*Geocode).GetGeocodes`. -/
def Geocode.GetGeocodes (g : Geocode) (name : String) : Outcome (List String) :=
  Geocode.GetGeocodes.range g name g.Names 0

/-- Go `(*Entry).GetParameter` (pointer receiver: the value and the receiver
as the call leaves it). -/
def Entry.GetParameter (e : Entry) (name : String) : String × Entry :=
  (shared.Search e.Parameter name, e)

/-- Go `atom.NwsNationalAtomFeedURL`. -/
def NwsNationalAtomFeedURL : String := "https://alerts.weather.gov/cap/us.php?x=1"

/-- What `handleHTTPResponse` reads of an `http.Response`: the two fields
and what `ioutil.ReadAll(r.Body)` returns. -/
structure Response where
  StatusCode : Int := 0
  ContentLength : Int := 0
  Body : Except GoError Bytes := .ok []

/-- Go `handleHTTPResponse`. The response is a pointer (`none` is nil); it is
read only once `err` is found nil. -/
def handleHTTPResponse (r : Option Response) (err : Option GoError) :
    Outcome (Option Bytes × Option GoError) :=
  match err with
  | some err => .returned (none, some err)
  | none =>
    match r with
    | none => .nilDereference
    | some r =>
      if r.StatusCode ≠ 200 then
        .returned (none, some { msg := "HTTP status code: " ++ toString r.StatusCode })
      else if r.ContentLength = 0 then .returned (none, some { msg := "No content" })
      else
        match r.Body with
        | .error err => .returned (none, some err)
        | .ok body => .returned (some body, none)

/-- What the client calls outside this repository: `http.Get` with the pair
it returns, and the decoder behind `xml.Unmarshal` for the two documents. -/
structure Net where
  Get : String → Option Response × Option GoError
  UnmarshalAlert11 : Bytes → Except GoError cap.Alert11
  UnmarshalFeed : Bytes → Except GoError Feed

/-- Go `(*Link).GetAlert`: the triple `(alert, body, err)`. -/
def Link.GetAlert (net : Net) (l : Link) :
    Outcome (Option cap.Alert11 × Option Bytes × Option GoError) :=
  match handleHTTPResponse (net.Get l.Href).1 (net.Get l.Href).2 with
  | .indexOutOfRange => .indexOutOfRange
  | .nilDereference => .nilDereference
  | .returned (_, some err) => .returned (none, none, some err)
  | .returned (body, none) =>
    match net.UnmarshalAlert11 (body.getD []) with
    | .error err => .returned (none, none, some err)
    | .ok alert => .returned (some alert, body, none)

/-- Go `atom.GetFeedFrom`: the triple `(feed, body, err)`. -/
def GetFeedFrom (net : Net) (host : String) :
    Outcome (Option Feed × Option Bytes × Option GoError) :=
  match handleHTTPResponse (net.Get host).1 (net.Get host).2 with
  | .indexOutOfRange => .indexOutOfRange
  | .nilDereference => .nilDereference
  | .returned (_, some err) => .returned (none, none, some err)
  | .returned (body, none) =>
    match net.UnmarshalFeed (body.getD []) with
    | .error err => .returned (none, none, some err)
    | .ok downloadedFeed => .returned (some downloadedFeed, body, none)

/-- Go `atom.GetFeed`. -/
def GetFeed (net : Net) : Outcome (Option Feed × Option Bytes × Option GoError) :=
  GetFeedFrom net NwsNationalAtomFeedURL

end atom

/-! ## package commands (capship) -/

namespace commands

/-- Go `alertsDirectory`. -/
def alertsDirectory : String := "alerts/"

/-- Go `feedsDirectory`. -/
def feedsDirectory : String := "feeds/"

/-- Go `commands.Config` (without the TOML metadata). `HostName` is the field
that `feedGenerater` reads as `s.config.HostName`; the declaration in
config.go lists `Root`, `LogLevel` and `MaxUploadSize` only, so the field is
taken here as one more string of the configuration. -/
structure Config where
  Root : String := ""
  LogLevel : String := ""
  MaxUploadSize : Int := 0
  HostName : String := ""
  deriving DecidableEq

/-- Go `commands.Server` (without the `context.Context`). -/
structure Server where
  config : Config
  deriving DecidableEq

/-- What `feedGenerater` uses of an `os.FileInfo`: `Name()` and `IsDir()`. -/
structure FileInfo where
  Name : String
  IsDir : Bool
  deriving DecidableEq

/-- What `feedGenerater` calls outside this repository: `ioutil.ReadDir`,
`ioutil.ReadFile`, the decoder behind `xml.Unmarshal`, and
`time.Now().Format(time.RFC3339)`. -/
structure World where
  ReadDir : String → Except GoError (List FileInfo)
  ReadFile : String → Except GoError Bytes
  Unmarshal : Bytes → Except GoError cap.Alert
  Now : String

/-- The variables declared in the `var ( ... )` block of `feedGenerater`
(feed.go lines 56-61), all starting at their zero value. -/
structure AreaVars where
  areas : String := ""
  polygons : List String := []
  circles : List String := []
  geocode : atom.Geocode := {}
  deriving DecidableEq

/-- Body of the inner loop `for _, g := range a.Geocode` (lines 66-69). -/
def geocodeBody (geocode : atom.Geocode) (g : cap.NamedValue) : atom.Geocode :=
  { Names := geocode.Names ++ [g.ValueName],
    Values := geocode.Values ++ [g.Value] }

/-- Body of the loop `for _, a := range alert.Info[0].Area` (lines 62-70). -/
def areaBody (v : AreaVars) (a : cap.Area) : AreaVars :=
  { areas := v.areas ++ "; " ++ a.AreaDesc,
    polygons := v.polygons ++ a.Polygon,
    circles := v.circles ++ a.Circle,
    geocode := a.Geocode.foldl geocodeBody v.geocode }

/-- Body of the loop `for _, c := range alert.Info[0].Category` (lines 53-55). -/
def categoryBody (categories : List atom.Category) (c : String) : List atom.Category :=
  categories ++ [{ Content := c }]

/-- Lines 52-108 of `feedGenerater`: the entry built from one parsed alert
and the file it came from. `alert.Info[0]` faults when `alert.Info` is empty. -/
def feedGenerater.entry (s : Server) (file : FileInfo) (alert : cap.Alert) :
    Outcome atom.Entry :=
  match alert.Info with
  | [] => .indexOutOfRange
  | info0 :: _ =>
    let categories := info0.Category.foldl categoryBody []
    let v := info0.Area.foldl areaBody {}
    .returned
      { ID := alert.Identifier,
        Title := { Content := info0.Headline },
        Updated := alert.Sent,
        Author := [{ Name := alert.Sender }],
        Link := [{ Href := s.config.HostName ++ alertsDirectory ++ file.Name }],
        Summary := { Content := info0.Description },
        Category := categories,
        Published := alert.Sent,
        Event := info0.Event,
        Effective := info0.Effective,
        Expires := info0.Expires,
        Status := alert.Status,
        MsgType := alert.MsgType,
        Urgency := info0.Urgency,
        Severity := info0.Severity,
        Certainty := info0.Certainty,
        AreaDesc := v.areas,
        Polygon := v.polygons,
        Circle := v.circles,
        Geocode := v.geocode }

/-- The loop `for _, file := range files` of `feedGenerater` (lines 40-110),
run on the files still to visit and the `entries` collected so far. It ends
with `.ok entries` when the range is exhausted, with `.error err` at a
`return nil, err`, or faults. -/
def feedGenerater.range (s : Server) (w : World) (path : String) :
    List FileInfo → List atom.Entry → Outcome (Except GoError (List atom.Entry))
  | [], entries => .returned (.ok entries)
  | file :: rest, entries =>
    if file.IsDir then feedGenerater.range s w path rest entries
    else
      match w.ReadFile (path ++ file.Name) with
      | .error err => .returned (.error err)
      | .ok xmlData =>
        match cap.ParseAlert w.Unmarshal xmlData with
        | .error err => .returned (.error err)
        | .ok alert =>
          match feedGenerater.entry s file alert with
          | .indexOutOfRange => .indexOutOfRange
          | .nilDereference => .nilDereference
          | .returned entry => feedGenerater.range s w path rest (entries ++ [entry])

/-- Go `(*Server).feedGenerater`. -/
def feedGenerater (s : Server) (w : World) (path : String) :
    Outcome (Option atom.Feed × Option GoError) :=
  match w.ReadDir path with
  | .error err => .returned (none, some err)
  | .ok files =>
    match feedGenerater.range s w path files [] with
    | .indexOutOfRange => .indexOutOfRange
    | .nilDereference => .nilDereference
    | .returned (.error err) => .returned (none, some err)
    | .returned (.ok entries) =>
      .returned
        (some
          { ID := s.config.HostName ++ "cap/",
            Title := { Content := "Current Alerts Issued by foo.com" },
            Updated := w.Now,
            Author := [{ Name := "foo.webmaster@foo.com" }],
            Link := [{ Href := s.config.HostName ++ "cap/" }],
            Generator := { Content := "foo CAP Server" },
            Logo := "http://alerts.weather.gov/images/xml_logo.gif",
            Entries := entries },
         none)

/-! ### The HTTP handlers (server.go)

A request is held as its path and the bytes of its body; the response as the
status line and body written so far. The multipart decoder of `net/http` is a
parameter. A disk is the content of its files together with the faults the
operating system may answer with. -/

/-- Go `http.StatusBadRequest`. -/
def StatusBadRequest : Nat := 400

/-- Go `http.StatusInternalServerError`. -/
def StatusInternalServerError : Nat := 500

/-- Go `http.StatusOK`. -/
def StatusOK : Nat := 200

/-- What a handler has written to its `http.ResponseWriter`: the status of
the first `WriteHeader` (none while no header is written) and the body. -/
structure ResponseWriter where
  status : Option Nat := none
  body : String := ""
  deriving DecidableEq

/-- Go `w.WriteHeader(code)`: the first call fixes the status. -/
def ResponseWriter.WriteHeader (w : ResponseWriter) (code : Nat) : ResponseWriter :=
  match w.status with
  | none => { w with status := some code }
  | some _ => w

/-- Go `w.Write(b)`: writes the header with `http.StatusOK` when none was
written, then appends to the body. -/
def ResponseWriter.Write (w : ResponseWriter) (b : String) : ResponseWriter :=
  let w := w.WriteHeader StatusOK
  { w with body := w.body ++ b }

/-- What `net/http` does when the handler returns: a response whose header
was not written is sent with `http.StatusOK`. -/
def ResponseWriter.finishRequest (w : ResponseWriter) : ResponseWriter :=
  w.WriteHeader StatusOK

/-- A file part of a decoded multipart form: the form field it came under,
the `Filename` of its header, and its content. -/
structure FormFile where
  Key : String
  Filename : String
  Content : Bytes
  deriving DecidableEq

/-- What the handlers read of an `http.Request`: `r.URL.Path` and the body. -/
structure Request where
  Path : String := "/"
  Body : Bytes := []
  deriving DecidableEq

/-- The disk under the server: the content of every regular file by path,
the error (if any) that `os.OpenFile` answers for a path, and the fault (if
any) that stops a write: after that many bytes, with that error. -/
structure Disk where
  files : String → Option Bytes
  openError : String → Option GoError := fun _ => none
  writeFault : Option (Nat × GoError) := none

/-- Go `http.MaxBytesReader` followed by `r.ParseMultipartForm`: the form is
read to its end, which fails when the body is longer than the limit of the
reader; otherwise the decoder decides. The body of the request stands for
the bytes of the form up to its closing boundary, which is what the reader
of the form consumes. -/
def ParseMultipartForm (decode : Bytes → Except GoError (List FormFile))
    (r : Request) (maxUploadSize : Int) : Except GoError (List FormFile) :=
  if maxUploadSize < (r.Body.length : Int) then
    .error { msg := "http: request body too large" }
  else decode r.Body

/-- Go `r.FormFile(key)`: the first file of the form under `key`. -/
def FormFile.lookup (form : List FormFile) (key : String) : Except GoError FormFile :=
  match form.find? (fun f => decide (f.Key = key)) with
  | some f => .ok f
  | none => .error { msg := "http: no such file" }

/-- Go `(*Server).writeError` (the log line left out): the header is written
with `http.StatusBadRequest`, whatever `statusCode` is, then the message. -/
def Server.writeError (_s : Server) (w : ResponseWriter) (message : String)
    (_statusCode : Nat) : ResponseWriter :=
  (w.WriteHeader StatusBadRequest).Write message

/-- Go `os.OpenFile(path, os.O_WRONLY|os.O_CREATE, 0666)` followed by
`io.Copy(f, file)`: an existing file is opened as it is (the flags do not
include `os.O_TRUNC`), a missing one is created empty, and the bytes are
written from offset 0 over what the file holds. The result is the disk after
the write and the pair `(written, err)` of `io.Copy`. -/
def Disk.openAndCopy (d : Disk) (path : String) (content : Bytes) :
    Except GoError (Disk × Nat × Option GoError) :=
  match d.openError path with
  | some err => .error err
  | none =>
    let old := (d.files path).getD []
    let (accepted, err) :=
      match d.writeFault with
      | some (n, e) => if n < content.length then (content.take n, some e) else (content, none)
      | none => (content, none)
    .ok ({ d with files := fun p =>
              if p = path then some (accepted ++ old.drop accepted.length) else d.files p },
         accepted.length, err)

/-- Go `(*Server).uploadHandler` (the log line left out): the disk and the
response as the handler leaves them. -/
def Server.uploadHandler (s : Server) (decode : Bytes → Except GoError (List FormFile))
    (d : Disk) (w : ResponseWriter) (r : Request) : Disk × ResponseWriter :=
  match ParseMultipartForm decode r s.config.MaxUploadSize with
  | .error err =>
    (d, s.writeError w
      (err.msg ++ " - Max filesize: " ++ toString s.config.MaxUploadSize ++ "b")
      StatusBadRequest)
  | .ok form =>
    match FormFile.lookup form "uploadFile" with
    | .error err => (d, s.writeError w err.msg StatusBadRequest)
    | .ok hdr =>
      let path := s.config.Root ++ alertsDirectory ++ hdr.Filename
      match d.openAndCopy path hdr.Content with
      | .error err => (d, s.writeError w err.msg StatusInternalServerError)
      | .ok (d', _written, some err) =>
        (d', s.writeError w err.msg StatusInternalServerError)
      | .ok (d', _written, none) => (d', w)

/-- Go `ioutil.ReadFile(path)` on the disk: the content of the file, or the
error of opening a file that does not exist. -/
def Disk.ReadFile (d : Disk) (path : String) : Except GoError Bytes :=
  match d.files path with
  | some content => .ok content
  | none => .error { msg := "open " ++ path ++ ": no such file or directory" }

/-- Go `(*Server).pullHandler` (the log line left out): the response as the
handler leaves it. The handler is registered under `/cap/`, so `r.URL.Path`
is not empty and `r.URL.Path[1:]` is the path without its first character. On
a read error the handler logs and writes nothing. -/
def Server.pullHandler (s : Server) (d : Disk) (w : ResponseWriter) (r : Request) :
    ResponseWriter :=
  let reference := strings.TrimPrefix (String.mk (r.Path.data.drop 1)) "cap/"
  let reference :=
    if reference = "" then s.config.Root ++ feedsDirectory ++ "nws_atom_feed_example.xml"
    else s.config.Root ++ alertsDirectory ++ reference
  match d.ReadFile reference with
  | .error _ => w
  | .ok xmlData => w.Write (bytesToString xmlData)

end commands

/-! ## package main of captn -/

namespace captn

/-- Go `DefaultAtomFeed`. -/
def DefaultAtomFeed : String := atom.NwsNationalAtomFeedURL

/-- The loop `for _, entry := range feed.Entries` of the `alert` command
(captn.go lines 75-83), on the entries still to visit and the documents
printed so far. `entry.Link[0]` faults on an entry without a link; an error
of `GetAlert` is returned at once. -/
def alertAction.range (lower : Char → Char) (net : atom.Net) (alertType : String) :
    List atom.Entry → List Bytes → Outcome (List Bytes × Option GoError)
  | [], printed => .returned (printed, none)
  | entry :: rest, printed =>
    if strings.Contains (strings.ToLower lower entry.Event) alertType then
      match entry.Link with
      | [] => .indexOutOfRange
      | l :: _ =>
        match l.GetAlert net with
        | .indexOutOfRange => .indexOutOfRange
        | .nilDereference => .nilDereference
        | .returned (_, _, some err) => .returned (printed, some err)
        | .returned (_, raw, none) =>
          alertAction.range lower net alertType rest (printed ++ [raw.getD []])
    else alertAction.range lower net alertType rest printed

/-- The `Action` of the `alert` command (captn.go lines 69-85): `args` are
the arguments after the command name (`c.Args().Get(0)` is the first, or the
empty string), `atomFeed` is the global flag `atom-feed`. The result is what
was printed, document by document, and the error returned. -/
def alertAction (lower : Char → Char) (net : atom.Net) (args : List String)
    (atomFeed : String) : Outcome (List Bytes × Option GoError) :=
  let alertType := strings.ToLower lower (args.getD 0 "")
  match atom.GetFeedFrom net atomFeed with
  | .indexOutOfRange => .indexOutOfRange
  | .nilDereference => .nilDereference
  | .returned (_, _, some err) => .returned ([], some err)
  | .returned (none, _, none) => .nilDereference
  | .returned (some feed, _, none) =>
    alertAction.range lower net alertType feed.Entries []

end captn

/-! ## Sample data -/

namespace sample

/-- First Info block of the sample alert: two areas, a repeated geocode name. -/
def info : cap.Info :=
  { Category := ["Met", "Safety"],
    Event := "SEVERE THUNDERSTORM",
    Urgency := "Immediate",
    Severity := "Severe",
    Certainty := "Observed",
    Effective := "2003-06-17T14:57:00-07:00",
    Expires := "2003-06-17T16:00:00-07:00",
    Headline := "SEVERE THUNDERSTORM WARNING",
    Description := "A severe thunderstorm over south central Alpine county",
    Parameter := [{ ValueName := "VTEC", Value := "/O.NEW.KSTO.SV.W.0001/" }],
    Area :=
      [ { AreaDesc := "Alpine",
          Polygon := ["38.47,-120.14 38.34,-119.95 38.47,-120.14"],
          Geocode := [{ ValueName := "SAME", Value := "006109" },
                      { ValueName := "SAME", Value := "006009" }] },
        { AreaDesc := "Amador",
          Circle := ["38.5,-120.5 10"],
          Geocode := [{ ValueName := "UGC", Value := "CAZ069" }] } ] }

/-- A second Info block, in another language. -/
def infoEs : cap.Info :=
  { Language := "es-US", Category := ["Met"], Headline := "AVISO DE TORMENTA" }

/-- An alert with two Info blocks. -/
def alert : cap.Alert :=
  { Identifier := "KSTO1055887203",
    Sender := "KSTO@NWS.NOAA.GOV",
    Sent := "2003-06-17T14:57:00-07:00",
    Status := "Actual",
    MsgType := "Alert",
    Scope := "Public",
    Info := [info, infoEs] }

/-- The same alert with only its first Info block and other secondary fields. -/
def alertShort : cap.Alert :=
  { Identifier := "KSTO1055887203",
    Sender := "KSTO@NWS.NOAA.GOV",
    Sent := "2003-06-17T14:57:00-07:00",
    Status := "Actual",
    MsgType := "Alert",
    Scope := "Restricted",
    Note := "single block",
    Info := [info] }

/-- A second alert, without areas. -/
def alertB : cap.Alert :=
  { Identifier := "KAR0-0306112239-SW",
    Sender := "KARO@CLETS.DOJ.CA.GOV",
    Sent := "2003-06-11T22:39:00-07:00",
    Status := "Actual",
    MsgType := "Alert",
    Scope := "Public",
    Info := [{ Category := ["Rescue"], Event := "Child Abduction",
               Headline := "Amber Alert in Los Angeles County" }] }

def server : commands.Server :=
  { config := { Root := "/var/lib/capship/", LogLevel := "info",
                MaxUploadSize := 2097152, HostName := "http://localhost:8080/" } }

def fileA : commands.FileInfo := { Name := "a.xml", IsDir := false }
def fileB : commands.FileInfo := { Name := "b.xml", IsDir := false }
def fileBad : commands.FileInfo := { Name := "bad.xml", IsDir := false }
def dirOld : commands.FileInfo := { Name := "old", IsDir := true }

/-- The decoder of the sample worlds: two documents decode, the rest is
rejected with the decoder's end-of-input error. -/
def unmarshal (xmlData : Bytes) : Except GoError cap.Alert :=
  if xmlData = [1] then .ok alert
  else if xmlData = [2] then .ok alertB
  else .error { msg := "EOF" }

/-- The files of the sample worlds. -/
def readFile (p : String) : Except GoError Bytes :=
  if p = "/var/lib/capship/alerts/a.xml" then .ok [1]
  else if p = "/var/lib/capship/alerts/b.xml" then .ok [2]
  else if p = "/var/lib/capship/alerts/bad.xml" then .ok []
  else .error { msg := "open " ++ p ++ ": no such file or directory" }

/-- A store holding two alerts and a subdirectory, next to an empty
directory. -/
def world : commands.World :=
  { ReadDir := fun p =>
      if p = "/var/lib/capship/alerts/" then .ok [fileA, dirOld, fileB]
      else if p = "/var/lib/capship/empty/" then .ok []
      else .error { msg := "open " ++ p ++ ": no such file or directory" },
    ReadFile := readFile,
    Unmarshal := unmarshal,
    Now := "2018-10-01T12:00:00Z" }

/-- A store holding a good alert followed by a malformed one and another
good one. -/
def worldBad : commands.World :=
  { ReadDir := fun p =>
      if p = "/var/lib/capship/alerts/" then .ok [fileA, fileBad, fileB]
      else .error { msg := "open " ++ p ++ ": no such file or directory" },
    ReadFile := readFile,
    Unmarshal := unmarshal,
    Now := "2018-10-01T12:00:00Z" }

/-- The evening of 11 June 2003 in a zone seven hours west of UTC. -/
def pacificTime : time.Time :=
  { Year := 2003, Month := 6, Day := 11, Hour := 22, Minute := 39, Second := 0,
    Offset := -25200 }

/-- The same wall clock in UTC. -/
def utcTime : time.Time :=
  { Year := 2003, Month := 6, Day := 11, Hour := 22, Minute := 39, Second := 0,
    Offset := 0 }

/-- New Year 1900 in a zone on local mean time, 19 minutes 32 seconds east of
UTC (`time.FixedZone("LMT", 1172)`). -/
def localMeanTime : time.Time :=
  { Year := 1900, Month := 1, Day := 1, Hour := 0, Minute := 0, Second := 0,
    Offset := 1172 }

/-- New Year of the year 10000 in a zone one hour east of UTC. -/
def year10000 : time.Time :=
  { Year := 10000, Month := 1, Day := 1, Hour := 0, Minute := 0, Second := 0,
    Offset := 3600 }

/-- A time in `time.FixedZone("", 360000)`, a hundred hours east of UTC. -/
def farEast : time.Time :=
  { Year := 2003, Month := 6, Day := 11, Hour := 22, Minute := 39, Second := 0,
    Offset := 360000 }

/-- A disk whose alert store holds `a.xml` with six bytes. -/
def disk : commands.Disk :=
  { files := fun p =>
      if p = "/var/lib/capship/alerts/a.xml" then some [97, 98, 99, 100, 101, 102]
      else none }

/-- A multipart decoder for the sample requests: the body is the content of
one file, sent as `a.xml` in the form field `uploadFile`. -/
def decode (body : Bytes) : Except GoError (List commands.FormFile) :=
  .ok [{ Key := "uploadFile", Filename := "a.xml", Content := body }]

/-- An upload of two bytes under the name `a.xml`. -/
def shortUpload : commands.Request :=
  { Path := "/upload", Body := [120, 121] }

/-- An upload of eight bytes under the name `a.xml`. -/
def longUpload : commands.Request :=
  { Path := "/upload", Body := [49, 50, 51, 52, 53, 54, 55, 56] }

/-- A server that accepts uploads of at most four bytes. -/
def smallServer : commands.Server :=
  { config := { Root := "/var/lib/capship/", LogLevel := "info", MaxUploadSize := 4,
                HostName := "http://localhost:8080/" } }

/-- A request for an alert that is not stored. -/
def pullMissing : commands.Request :=
  { Path := "/cap/missing.xml" }

/-- A request for the stored alert `a.xml`. -/
def pullStored : commands.Request :=
  { Path := "/cap/a.xml" }

/-- An alert that parses and has no Info block. -/
def alertNoInfo : cap.Alert :=
  { Identifier := "KSTO1055887204",
    Sender := "KSTO@NWS.NOAA.GOV",
    Sent := "2003-06-17T15:00:00-07:00",
    Status := "Actual",
    MsgType := "Cancel",
    Scope := "Public" }

/-- A store holding a single alert, which has no Info block. -/
def worldNoInfo : commands.World :=
  { ReadDir := fun _ => .ok [fileA],
    ReadFile := fun _ => .ok [3],
    Unmarshal := fun _ => .ok alertNoInfo,
    Now := "2018-10-01T12:00:00Z" }

/-- A feed of three entries, each linking to its alert. -/
def nwsFeed : atom.Feed :=
  { ID := "https://alerts.weather.gov/cap/us.php?x=0",
    Entries :=
      [ { ID := "1", Event := "Flood Warning", Link := [{ Href := "http://nws/1" }] },
        { ID := "2", Event := "Red Flag Warning", Link := [{ Href := "http://nws/2" }] },
        { ID := "3", Event := "Flash FLOOD Watch", Link := [{ Href := "http://nws/3" }] } ] }

/-- A network that serves the feed at `http://nws/feed` and one document per
entry. -/
def net : atom.Net :=
  { Get := fun url =>
      if url = "http://nws/feed" then
        (some { StatusCode := 200, ContentLength := 1, Body := .ok [0] }, none)
      else if url = "http://nws/1" then
        (some { StatusCode := 200, ContentLength := 1, Body := .ok [1] }, none)
      else if url = "http://nws/2" then
        (some { StatusCode := 200, ContentLength := 1, Body := .ok [2] }, none)
      else if url = "http://nws/3" then
        (some { StatusCode := 200, ContentLength := 1, Body := .ok [3] }, none)
      else (none, some { msg := "Get " ++ url ++ ": unsupported protocol scheme" }),
    UnmarshalAlert11 := fun _ => .ok {},
    UnmarshalFeed := fun _ => .ok nwsFeed }

/-- A disk on which no file of the alert store can be opened for writing. -/
def readOnlyDisk : commands.Disk :=
  { files := disk.files,
    openError := fun p => some { msg := "open " ++ p ++ ": permission denied" } }

end sample

/-! ## Lemmas on the loops -/

namespace shared

theorem Search_eq_find (nv : List NamedValue) (name : String) :
    Search nv name
      = ((nv.find? (fun element => decide (element.ValueName = name))).map
          NamedValue.Value).getD "" := by
  induction nv with
  | nil => rfl
  | cons element rest ih =>
    by_cases h : element.ValueName = name
    · simp [Search, h]
    · simp [Search, h, ih]

theorem Search_eq_head_filter (nv : List NamedValue) (name : String) :
    Search nv name
      = (((nv.filter (fun element => decide (element.ValueName = name))).head?).map
          NamedValue.Value).getD "" := by
  induction nv with
  | nil => rfl
  | cons element rest ih =>
    by_cases h : element.ValueName = name
    · simp [Search, h]
    · simp [Search, h, ih]

theorem Search_skip (pre : List NamedValue) (rest : List NamedValue) (name : String)
    (hpre : ∀ e ∈ pre, e.ValueName ≠ name) :
    Search (pre ++ rest) name = Search rest name := by
  induction pre with
  | nil => rfl
  | cons e pre ih =>
    have he : e.ValueName ≠ name := hpre e (List.mem_cons_self _ _)
    have hrest : ∀ x ∈ pre, x.ValueName ≠ name :=
      fun x hx => hpre x (List.mem_cons_of_mem _ hx)
    simp [Search, he, ih hrest]

end shared

namespace commands

theorem foldl_categoryBody (cs : List String) (init : List atom.Category) :
    cs.foldl categoryBody init
      = init ++ cs.map (fun c => ({ Content := c } : atom.Category)) := by
  induction cs generalizing init with
  | nil => simp
  | cons c cs ih => simp [List.foldl_cons, ih, categoryBody]

theorem foldl_geocodeBody (gs : List cap.NamedValue) (init : atom.Geocode) :
    gs.foldl geocodeBody init
      = { Names := init.Names ++ gs.map (fun g => g.ValueName),
          Values := init.Values ++ gs.map (fun g => g.Value) } := by
  induction gs generalizing init with
  | nil => simp
  | cons g gs ih => simp [List.foldl_cons, ih, geocodeBody]

theorem join_cons (x : String) (xs : List String) :
    String.join (x :: xs) = x ++ String.join xs := by
  apply String.ext
  simp [String.join_eq]

theorem foldl_areaBody (as : List cap.Area) (init : AreaVars) :
    as.foldl areaBody init
      = { areas := init.areas ++ String.join (as.map (fun a => "; " ++ a.AreaDesc)),
          polygons := init.polygons ++ (as.map (fun a => a.Polygon)).flatten,
          circles := init.circles ++ (as.map (fun a => a.Circle)).flatten,
          geocode :=
            { Names := init.geocode.Names
                ++ ((as.map (fun a => a.Geocode)).flatten).map (fun g => g.ValueName),
              Values := init.geocode.Values
                ++ ((as.map (fun a => a.Geocode)).flatten).map (fun g => g.Value) } } := by
  induction as generalizing init with
  | nil => simp [String.join]
  | cons a as ih =>
    simp [List.foldl_cons, ih, areaBody, foldl_geocodeBody, join_cons, String.append_assoc]

end commands

namespace commands

/-- The entry of an alert whose first Info block is `info0`, with the three
accumulating loops written as maps and concatenations. -/
theorem entry_of_first_info (s : Server) (file : FileInfo) (alert : cap.Alert)
    (info0 : cap.Info) (rest : List cap.Info) (h : alert.Info = info0 :: rest) :
    feedGenerater.entry s file alert
      = .returned
          { ID := alert.Identifier,
            Title := { Content := info0.Headline },
            Updated := alert.Sent,
            Author := [{ Name := alert.Sender }],
            Link := [{ Href := s.config.HostName ++ alertsDirectory ++ file.Name }],
            Summary := { Content := info0.Description },
            Category := info0.Category.map (fun c => ({ Content := c } : atom.Category)),
            Published := alert.Sent,
            Event := info0.Event,
            Effective := info0.Effective,
            Expires := info0.Expires,
            Status := alert.Status,
            MsgType := alert.MsgType,
            Urgency := info0.Urgency,
            Severity := info0.Severity,
            Certainty := info0.Certainty,
            AreaDesc := String.join (info0.Area.map (fun a => "; " ++ a.AreaDesc)),
            Polygon := (info0.Area.map (fun a => a.Polygon)).flatten,
            Circle := (info0.Area.map (fun a => a.Circle)).flatten,
            Geocode :=
              { Names := ((info0.Area.map (fun a => a.Geocode)).flatten).map
                  (fun g => g.ValueName),
                Values := ((info0.Area.map (fun a => a.Geocode)).flatten).map
                  (fun g => g.Value) } } := by
  simp [feedGenerater.entry, h, foldl_categoryBody, foldl_areaBody]

/-- An entry is returned exactly for an alert that has an Info block. -/
theorem entry_returned_iff (s : Server) (file : FileInfo) (alert : cap.Alert) :
    (∃ e, feedGenerater.entry s file alert = .returned e) ↔ alert.Info ≠ [] := by
  cases h : alert.Info with
  | nil => simp [feedGenerater.entry, h]
  | cons info0 rest => simp [feedGenerater.entry, h]

end commands

namespace commands

theorem ParseAlert_eq (unmarshal : Bytes → Except GoError cap.Alert) (xmlData : Bytes) :
    cap.ParseAlert unmarshal xmlData = unmarshal xmlData := by
  unfold cap.ParseAlert
  cases unmarshal xmlData <;> rfl

/-- One turn of the file loop on a file that reads, parses and projects. -/
theorem range_cons_ok (s : Server) (w : World) (path : String) (file : FileInfo)
    (rest : List FileInfo) (entries : List atom.Entry) (xmlData : Bytes)
    (alert : cap.Alert) (entry : atom.Entry) (hfile : file.IsDir = false)
    (hread : w.ReadFile (path ++ file.Name) = .ok xmlData)
    (hparse : cap.ParseAlert w.Unmarshal xmlData = .ok alert)
    (hentry : feedGenerater.entry s file alert = .returned entry) :
    feedGenerater.range s w path (file :: rest) entries
      = feedGenerater.range s w path rest (entries ++ [entry]) := by
  simp [feedGenerater.range, hfile, hread, hparse, hentry]

/-- One turn of the file loop on a subdirectory. -/
theorem range_cons_dir (s : Server) (w : World) (path : String) (file : FileInfo)
    (rest : List FileInfo) (entries : List atom.Entry) (hfile : file.IsDir = true) :
    feedGenerater.range s w path (file :: rest) entries
      = feedGenerater.range s w path rest entries := by
  simp [feedGenerater.range, hfile]

/-- When every file reads and parses to an alert with an Info block, the loop
runs to its end and has appended one entry per file, in order. -/
theorem range_complete (s : Server) (w : World) (path : String)
    (files : List FileInfo) (entries : List atom.Entry)
    (hall : ∀ file ∈ files, file.IsDir = false →
      ∃ xmlData alert, w.ReadFile (path ++ file.Name) = .ok xmlData
        ∧ cap.ParseAlert w.Unmarshal xmlData = .ok alert ∧ alert.Info ≠ []) :
    ∃ new, feedGenerater.range s w path files entries = .returned (.ok (entries ++ new))
      ∧ List.Forall₂
          (fun file entry =>
            ∃ xmlData alert, w.ReadFile (path ++ file.Name) = .ok xmlData
              ∧ cap.ParseAlert w.Unmarshal xmlData = .ok alert
              ∧ feedGenerater.entry s file alert = .returned entry)
          (files.filter (fun file => !file.IsDir)) new := by
  induction files generalizing entries with
  | nil => exact ⟨[], by simp [feedGenerater.range], by simp⟩
  | cons file rest ih =>
    have hrest : ∀ f ∈ rest, f.IsDir = false →
        ∃ xmlData alert, w.ReadFile (path ++ f.Name) = .ok xmlData
          ∧ cap.ParseAlert w.Unmarshal xmlData = .ok alert ∧ alert.Info ≠ [] :=
      fun f hf => hall f (List.mem_cons_of_mem _ hf)
    cases hdir : file.IsDir with
    | true =>
      obtain ⟨new, hrun, hrel⟩ := ih entries hrest
      have hf : (file :: rest).filter (fun file => !file.IsDir)
          = rest.filter (fun file => !file.IsDir) := by simp [hdir]
      exact ⟨new, by rw [range_cons_dir s w path file rest entries hdir, hrun],
        by rw [hf]; exact hrel⟩
    | false =>
      obtain ⟨xmlData, alert, hread, hparse, hinfo⟩ :=
        hall file (List.mem_cons_self _ _) hdir
      obtain ⟨entry, hentry⟩ := (entry_returned_iff s file alert).mpr hinfo
      obtain ⟨new, hrun, hrel⟩ := ih (entries ++ [entry]) hrest
      refine ⟨entry :: new, ?_, ?_⟩
      · rw [range_cons_ok s w path file rest entries xmlData alert entry hdir hread
          hparse hentry, hrun]
        simp
      · have hf : (file :: rest).filter (fun file => !file.IsDir)
            = file :: rest.filter (fun file => !file.IsDir) := by simp [hdir]
        rw [hf]
        exact List.Forall₂.cons ⟨xmlData, alert, hread, hparse, hentry⟩ hrel

/-- The loop stops at the first file that fails to read or to parse, with
that file's error, when the files before it were skipped or projected. -/
theorem range_abort (s : Server) (w : World) (path : String)
    (pre : List FileInfo) (file : FileInfo) (post : List FileInfo)
    (entries : List atom.Entry) (err : GoError)
    (hpre : ∀ f ∈ pre, f.IsDir = true ∨
      ∃ xmlData alert entry, w.ReadFile (path ++ f.Name) = .ok xmlData
        ∧ cap.ParseAlert w.Unmarshal xmlData = .ok alert
        ∧ feedGenerater.entry s f alert = .returned entry)
    (hfile : file.IsDir = false)
    (hfail : w.ReadFile (path ++ file.Name) = .error err
      ∨ ∃ xmlData, w.ReadFile (path ++ file.Name) = .ok xmlData
          ∧ cap.ParseAlert w.Unmarshal xmlData = .error err) :
    feedGenerater.range s w path (pre ++ file :: post) entries
      = .returned (.error err) := by
  induction pre generalizing entries with
  | nil =>
    rcases hfail with hread | ⟨xmlData, hread, hparse⟩
    · simp [feedGenerater.range, hfile, hread]
    · simp [feedGenerater.range, hfile, hread, hparse]
  | cons f pre ih =>
    have hrest : ∀ g ∈ pre, g.IsDir = true ∨
        ∃ xmlData alert entry, w.ReadFile (path ++ g.Name) = .ok xmlData
          ∧ cap.ParseAlert w.Unmarshal xmlData = .ok alert
          ∧ feedGenerater.entry s g alert = .returned entry :=
      fun g hg => hpre g (List.mem_cons_of_mem _ hg)
    cases hdir : f.IsDir with
    | true =>
      rw [List.cons_append, range_cons_dir s w path f _ entries hdir]
      exact ih entries hrest
    | false =>
      rcases hpre f (List.mem_cons_self _ _) with h | ⟨xmlData, alert, entry, hread, hparse, hentry⟩
      · simp [hdir] at h
      · rw [List.cons_append,
          range_cons_ok s w path f _ entries xmlData alert entry hdir hread hparse hentry]
        exact ih (entries ++ [entry]) hrest

/-- When the loop runs to its end, every file that is not a directory was
read and parsed. -/
theorem range_ok_inv (s : Server) (w : World) (path : String)
    (files : List FileInfo) (entries result : List atom.Entry)
    (h : feedGenerater.range s w path files entries = .returned (.ok result)) :
    ∀ file ∈ files, file.IsDir = false →
      ∃ xmlData alert, w.ReadFile (path ++ file.Name) = .ok xmlData
        ∧ cap.ParseAlert w.Unmarshal xmlData = .ok alert := by
  induction files generalizing entries with
  | nil => intro file hfile; simp at hfile
  | cons f rest ih =>
    cases hdir : f.IsDir with
    | true =>
      rw [range_cons_dir s w path f rest entries hdir] at h
      intro file hfile hnd
      rcases List.mem_cons.mp hfile with rfl | hmem
      · simp [hdir] at hnd
      · exact ih entries h file hmem hnd
    | false =>
      cases hread : w.ReadFile (path ++ f.Name) with
      | error err => simp [feedGenerater.range, hdir, hread] at h
      | ok xmlData =>
        cases hparse : cap.ParseAlert w.Unmarshal xmlData with
        | error err => simp [feedGenerater.range, hdir, hread, hparse] at h
        | ok alert =>
          cases hentry : feedGenerater.entry s f alert with
          | indexOutOfRange =>
            simp [feedGenerater.range, hdir, hread, hparse, hentry] at h
          | nilDereference =>
            simp [feedGenerater.range, hdir, hread, hparse, hentry] at h
          | returned entry =>
            rw [range_cons_ok s w path f rest entries xmlData alert entry hdir hread
              hparse hentry] at h
            intro file hfile hnd
            rcases List.mem_cons.mp hfile with rfl | hmem
            · exact ⟨xmlData, alert, hread, hparse⟩
            · exact ih (entries ++ [entry]) h file hmem hnd

end commands

/-! ## Lemmas on the lookups -/

namespace shared

theorem SearchAll_foldl (nv : List NamedValue) (name : String) (init : List String) :
    nv.foldl
        (fun found element =>
          if element.ValueName = name then found ++ [element.Value] else found)
        init
      = init ++ (nv.filter (fun element => decide (element.ValueName = name))).map
          NamedValue.Value := by
  induction nv generalizing init with
  | nil => simp
  | cons element rest ih =>
    by_cases h : element.ValueName = name
    · simp [List.foldl_cons, h, ih]
    · simp [List.foldl_cons, h, ih]

theorem SearchAll_eq (nv : List NamedValue) (name : String) :
    SearchAll nv name
      = (nv.filter (fun element => decide (element.ValueName = name))).map
          NamedValue.Value := by
  simpa [SearchAll] using SearchAll_foldl nv name []

end shared

namespace atom

/-- The loop of `GetGeocodes` started at index `k`: when the first name equal
to `name` is the `i`-th of the names still to visit, the loop ends at
`Values[k + i]`. -/
theorem GetGeocodes_range_first (g : Geocode) (name : String) (names : List String)
    (k i : Nat) (hi : names[i]? = some name)
    (hfirst : ∀ j, j < i → names[j]? ≠ some name) :
    Geocode.GetGeocodes.range g name names k
      = match g.Values[k + i]? with
        | some v => .returned (strings.Split v ' ')
        | none => .indexOutOfRange := by
  induction names generalizing k i with
  | nil => simp at hi
  | cons value rest ih =>
    cases i with
    | zero =>
      have hv : value = name := by simpa using hi
      simp [Geocode.GetGeocodes.range, hv]
    | succ i =>
      have hne : value ≠ name := by
        have := hfirst 0 (Nat.succ_pos i)
        simpa using this
      have hi' : rest[i]? = some name := by simpa using hi
      have hfirst' : ∀ j, j < i → rest[j]? ≠ some name := by
        intro j hj
        have := hfirst (j + 1) (Nat.succ_lt_succ hj)
        simpa using this
      have := ih (k + 1) i hi' hfirst'
      simp only [Geocode.GetGeocodes.range, hne, if_false, this]
      rw [Nat.add_assoc, Nat.add_comm 1 i]

theorem GetGeocodes_range_none (g : Geocode) (name : String) (names : List String)
    (k : Nat) (hnone : name ∉ names) :
    Geocode.GetGeocodes.range g name names k = .returned [] := by
  induction names generalizing k with
  | nil => rfl
  | cons value rest ih =>
    have hne : value ≠ name := fun h => hnone (by simp [h])
    have hrest : name ∉ rest := fun h => hnone (List.mem_cons_of_mem _ h)
    simp [Geocode.GetGeocodes.range, hne, ih (k + 1) hrest]

end atom

namespace strings

theorem intercalate_go_data (sep : String) (rest : List String) (acc : String) :
    (String.intercalate.go acc sep rest).data
      = acc.data ++ (rest.map (fun t => sep.data ++ t.data)).flatten := by
  induction rest generalizing acc with
  | nil => simp [String.intercalate.go]
  | cons t rest ih => simp [String.intercalate.go, ih, List.append_assoc]

theorem intercalate_data (sep : String) (tokens : List String) :
    (sep.intercalate tokens).data = sep.data.intercalate (tokens.map String.data) := by
  cases tokens with
  | nil => rfl
  | cons t rest =>
    simp only [String.intercalate, intercalate_go_data, List.intercalate, List.map_cons]
    induction rest generalizing t with
    | nil => simp
    | cons u rest ih =>
      have := ih u
      simp only [List.map_cons, List.intersperse, List.flatten_cons] at this ⊢
      rw [← this]
      simp [List.append_assoc]

/-- Splitting the join of tokens without the separator gives the tokens. -/
theorem Split_intercalate (tokens : List String) (hne : tokens ≠ [])
    (hsep : ∀ t ∈ tokens, ' ' ∉ t.data) :
    Split (" ".intercalate tokens) ' ' = tokens := by
  unfold Split
  rw [intercalate_data]
  have h : ([' '].intercalate (tokens.map String.data)).splitOn ' '
      = tokens.map String.data := List.splitOn_intercalate (tokens.map String.data) ' '
    (by
      intro l hl
      obtain ⟨t, ht, rfl⟩ := List.mem_map.mp hl
      exact hsep t ht)
    (by simpa using hne)
  have hd : (" " : String).data = [' '] := rfl
  rw [hd, h]
  simp [List.map_map, Function.comp_def]

end strings

/-! ## Lemmas on the time codec -/

namespace time

theorem digitChar_isDigit (d : Nat) (h : d < 10) : isDigit (digitChar d) = true := by
  interval_cases d <;> rfl

theorem digitVal_digitChar (d : Nat) (h : d < 10) : digitVal (digitChar d) = d := by
  interval_cases d <;> rfl

theorem digitVal_lt (c : Char) (h : isDigit c = true) : digitVal c < 10 := by
  simp only [isDigit, decide_eq_true_eq] at h
  unfold digitVal
  omega

theorem digitChar_digitVal (c : Char) (h : isDigit c = true) :
    digitChar (digitVal c) = c := by
  simp only [isDigit, decide_eq_true_eq] at h
  unfold digitChar digitVal
  have : 48 + (c.toNat - 48) = c.toNat := by omega
  rw [this, Char.ofNat_toNat]

theorem digitChar_ne (d : Nat) (h : d < 10) (c : Char) (hc : isDigit c = false) :
    digitChar d ≠ c := by
  intro heq
  rw [← heq, digitChar_isDigit d h] at hc
  exact absurd hc (by simp)

theorem digits_lt (k u : Nat) (h : u < 10) :
    appendInt.digits (k + 1) u = [digitChar u] := by
  have : ¬ 10 ≤ u := by omega
  simp [appendInt.digits, this]

theorem digits_ge (k u : Nat) (h : 10 ≤ u) :
    appendInt.digits (k + 1) u
      = appendInt.digits k (u / 10) ++ [digitChar (u % 10)] := by
  simp [appendInt.digits, h]

theorem appendInt_of_digits (n width : Nat) (ds : List Char)
    (hd : appendInt.digits 20 n = ds) :
    appendInt (n : Int) width = List.replicate (width - ds.length) '0' ++ ds := by
  have hneg : ¬ ((n : Int) < 0) := by omega
  simp only [appendInt, Int.natAbs_ofNat, hd, hneg, if_false, List.nil_append]

theorem appendInt_two (n : Nat) (h : n < 100) :
    appendInt (n : Int) 2 = [digitChar (n / 10), digitChar (n % 10)] := by
  by_cases h10 : 10 ≤ n
  · have hd : appendInt.digits 20 n = [digitChar (n / 10), digitChar (n % 10)] := by
      rw [digits_ge 19 n h10, digits_lt 18 (n / 10) (by omega)]
      rfl
    rw [appendInt_of_digits n 2 _ hd]
    rfl
  · have hd : appendInt.digits 20 n = [digitChar n] := digits_lt 19 n (by omega)
    have e0 : n / 10 = 0 := by omega
    have e1 : n % 10 = n := by omega
    rw [appendInt_of_digits n 2 _ hd, e0, e1]
    rfl

theorem appendInt_four (n : Nat) (h : n < 10000) :
    appendInt (n : Int) 4
      = [digitChar (n / 1000), digitChar (n / 100 % 10), digitChar (n / 10 % 10),
         digitChar (n % 10)] := by
  by_cases h10 : 10 ≤ n
  · by_cases h100 : 10 ≤ n / 10
    · by_cases h1000 : 10 ≤ n / 10 / 10
      · have hd : appendInt.digits 20 n
            = [digitChar (n / 10 / 10 / 10), digitChar (n / 10 / 10 % 10),
               digitChar (n / 10 % 10), digitChar (n % 10)] := by
          rw [digits_ge 19 n h10, digits_ge 18 (n / 10) h100,
            digits_ge 17 (n / 10 / 10) h1000, digits_lt 16 (n / 10 / 10 / 10) (by omega)]
          rfl
        have e1 : n / 10 / 10 / 10 = n / 1000 := by omega
        have e2 : n / 10 / 10 % 10 = n / 100 % 10 := by omega
        rw [appendInt_of_digits n 4 _ hd, e1, e2]
        rfl
      · have hd : appendInt.digits 20 n
            = [digitChar (n / 10 / 10), digitChar (n / 10 % 10), digitChar (n % 10)] := by
          rw [digits_ge 19 n h10, digits_ge 18 (n / 10) h100,
            digits_lt 17 (n / 10 / 10) (by omega)]
          rfl
        have e0 : n / 1000 = 0 := by omega
        have e2 : n / 100 % 10 = n / 10 / 10 := by omega
        rw [appendInt_of_digits n 4 _ hd, e0, e2]
        rfl
    · have hd : appendInt.digits 20 n = [digitChar (n / 10), digitChar (n % 10)] := by
        rw [digits_ge 19 n h10, digits_lt 18 (n / 10) (by omega)]
        rfl
      have e0 : n / 1000 = 0 := by omega
      have e1 : n / 100 % 10 = 0 := by omega
      have e2 : n / 10 % 10 = n / 10 := by omega
      rw [appendInt_of_digits n 4 _ hd, e0, e1, e2]
      rfl
  · have hd : appendInt.digits 20 n = [digitChar n] := digits_lt 19 n (by omega)
    have e0 : n / 1000 = 0 := by omega
    have e1 : n / 100 % 10 = 0 := by omega
    have e2 : n / 10 % 10 = 0 := by omega
    have e3 : n % 10 = n := by omega
    rw [appendInt_of_digits n 4 _ hd, e0, e1, e2, e3]
    rfl

theorem getnum_two (a b : Nat) (ha : a < 10) (hb : b < 10) (rest : List Char)
    (fixed : Bool) :
    getnum (digitChar a :: digitChar b :: rest) fixed = some (a * 10 + b, rest) := by
  simp [getnum, digitChar_isDigit, digitVal_digitChar, ha, hb]

theorem parseLongYear_four (a b c d : Nat) (ha : a < 10) (hb : b < 10) (hc : c < 10)
    (hd : d < 10) (rest : List Char) :
    parseLongYear (digitChar a :: digitChar b :: digitChar c :: digitChar d :: rest)
      = some (((a * 1000 + b * 100 + c * 10 + d : Nat) : Int), rest) := by
  simp [parseLongYear, digitChar_isDigit, digitVal_digitChar, ha, hb, hc, hd]

theorem parseZone_Z : parseZone ['Z'] = .ok (0, []) := rfl

theorem parseZone_numeric (sign : Char) (a b c d : Nat) (ha : a < 10) (hb : b < 10)
    (hc : c < 10) (hd : d < 10) (hsign : sign = '+' ∨ sign = '-')
    (hhr : a * 10 + b ≤ 24) (hmm : c * 10 + d ≤ 60) :
    parseZone [sign, digitChar a, digitChar b, ':', digitChar c, digitChar d]
      = .ok ((if sign = '-' then -1 else 1)
          * ((((a * 10 + b) * 60 + (c * 10 + d)) * 60 : Nat) : Int), []) := by
  have h1 : ¬ 24 < a * 10 + b := by omega
  have h2 : ¬ 60 < c * 10 + d := by omega
  rcases hsign with rfl | rfl
  · simp [parseZone, getnum_two, ha, hb, hc, hd, h1, h2]
  · simp [parseZone, getnum_two, ha, hb, hc, hd, h1, h2]

end time

namespace time

/-- `Parse` on a text made of a date and a time of day written with two
digits per field (four for the year) and a zone that `parseZone` accepts to
the end of the text. -/
theorem Parse_written (y0 y1 y2 y3 mo0 mo1 d0 d1 h0 h1 mi0 mi1 s0 s1 : Nat)
    (hdig : ∀ x ∈ [y0, y1, y2, y3, mo0, mo1, d0, d1, h0, h1, mi0, mi1, s0, s1], x < 10)
    (zone : List Char) (offset : Int)
    (hfrac : parseFraction zone = (0, zone))
    (hzone : parseZone zone = .ok (offset, []))
    (hmonth : 1 ≤ mo0 * 10 + mo1 ∧ mo0 * 10 + mo1 ≤ 12)
    (hday : 1 ≤ d0 * 10 + d1
      ∧ d0 * 10 + d1
          ≤ daysIn (mo0 * 10 + mo1) ((y0 * 1000 + y1 * 100 + y2 * 10 + y3 : Nat) : Int))
    (hhour : h0 * 10 + h1 < 24) (hmin : mi0 * 10 + mi1 < 60)
    (hsec : s0 * 10 + s1 < 60) :
    Parse
        (String.mk
          ([digitChar y0, digitChar y1, digitChar y2, digitChar y3, '-',
            digitChar mo0, digitChar mo1, '-', digitChar d0, digitChar d1, 'T',
            digitChar h0, digitChar h1, ':', digitChar mi0, digitChar mi1, ':',
            digitChar s0, digitChar s1] ++ zone))
      = .ok
          { Year := ((y0 * 1000 + y1 * 100 + y2 * 10 + y3 : Nat) : Int),
            Month := mo0 * 10 + mo1, Day := d0 * 10 + d1, Hour := h0 * 10 + h1,
            Minute := mi0 * 10 + mi1, Second := s0 * 10 + s1, Nanosecond := 0,
            Offset := offset } := by
  have hy0 := hdig y0 (by simp)
  have hy1 := hdig y1 (by simp)
  have hy2 := hdig y2 (by simp)
  have hy3 := hdig y3 (by simp)
  have hmo0 := hdig mo0 (by simp)
  have hmo1 := hdig mo1 (by simp)
  have hd0 := hdig d0 (by simp)
  have hd1 := hdig d1 (by simp)
  have hh0 := hdig h0 (by simp)
  have hh1 := hdig h1 (by simp)
  have hmi0 := hdig mi0 (by simp)
  have hmi1 := hdig mi1 (by simp)
  have hs0 := hdig s0 (by simp)
  have hs1 := hdig s1 (by simp)
  have c1 : ¬ (mo0 * 10 + mo1 = 0 ∨ 12 < mo0 * 10 + mo1) := by omega
  have c2 : ¬ 24 ≤ h0 * 10 + h1 := by omega
  have c3 : ¬ 60 ≤ mi0 * 10 + mi1 := by omega
  have c4 : ¬ 60 ≤ s0 * 10 + s1 := by omega
  have c5 : ¬ (d0 * 10 + d1 < 1
      ∨ daysIn (mo0 * 10 + mo1) ((y0 * 1000 + y1 * 100 + y2 * 10 + y3 : Nat) : Int)
          < d0 * 10 + d1) := by omega
  simp only [Parse, List.cons_append, List.nil_append,
    parseLongYear_four y0 y1 y2 y3 hy0 hy1 hy2 hy3, skip, if_true, Option.bind,
    getnum_two mo0 mo1 hmo0 hmo1, getnum_two d0 d1 hd0 hd1, getnum_two h0 h1 hh0 hh1,
    getnum_two mi0 mi1 hmi0 hmi1, getnum_two s0 s1 hs0 hs1, c1, c2, c3, c4, c5,
    if_false, hfrac, hzone, ne_eq, not_true_eq_false]

end time

namespace time

theorem daysIn_le (m : Nat) (year : Int) (h1 : 1 ≤ m) (h12 : m ≤ 12) :
    daysIn m year ≤ 31 := by
  unfold daysIn
  split
  · omega
  · interval_cases m <;> simp [daysBefore]

theorem tdiv_sixty_neg_iff (a : Int) : Int.tdiv a 60 < 0 ↔ a ≤ -60 := by
  rcases Int.eq_nat_or_neg a with ⟨n, rfl | rfl⟩
  · have : Int.tdiv (n : Int) 60 = ((n / 60 : Nat) : Int) := rfl
    rw [this]
    omega
  · have : Int.tdiv (-(n : Int)) 60 = -((n / 60 : Nat) : Int) := by
      rw [Int.neg_tdiv]
      rfl
    rw [this]
    omega

/-- The zone that `Format` writes for an offset other than zero and below a
hundred hours: a sign and the offset truncated to minutes, as `hh:mm`. -/
theorem formatZone_numeric (offset : Int) (hne : offset ≠ 0)
    (hlt : offset.natAbs / 60 / 60 < 100) :
    formatZone offset
      = [if Int.tdiv offset 60 < 0 then '-' else '+',
         digitChar (offset.natAbs / 60 / 60 / 10), digitChar (offset.natAbs / 60 / 60 % 10),
         ':',
         digitChar (offset.natAbs / 60 % 60 / 10), digitChar (offset.natAbs / 60 % 60 % 10)] := by
  have hmag : (if Int.tdiv offset 60 < 0 then -(Int.tdiv offset 60) else Int.tdiv offset 60)
      = ((offset.natAbs / 60 : Nat) : Int) := by
    have hn : (Int.tdiv offset 60).natAbs = offset.natAbs / 60 := by
      rw [Int.natAbs_tdiv]
      rfl
    generalize Int.tdiv offset 60 = z at hn
    split <;> omega
  have hdiv : Int.tdiv ((offset.natAbs / 60 : Nat) : Int) 60
      = ((offset.natAbs / 60 / 60 : Nat) : Int) := rfl
  have hmod : Int.tmod ((offset.natAbs / 60 : Nat) : Int) 60
      = ((offset.natAbs / 60 % 60 : Nat) : Int) := rfl
  have h60 : offset.natAbs / 60 % 60 < 100 := by omega
  simp only [formatZone, hne, if_false, hmag, hdiv, hmod,
    appendInt_two _ hlt, appendInt_two _ h60]
  rfl

/-- What `Format` writes for a time whose year has at most four digits. -/
theorem Format_written (t : Time) (Y : Nat) (hY : t.Year = (Y : Int)) (hY4 : Y < 10000)
    (hv : t.Valid) :
    t.Format
      = String.mk
          ([digitChar (Y / 1000), digitChar (Y / 100 % 10), digitChar (Y / 10 % 10),
            digitChar (Y % 10), '-', digitChar (t.Month / 10), digitChar (t.Month % 10),
            '-', digitChar (t.Day / 10), digitChar (t.Day % 10), 'T',
            digitChar (t.Hour / 10), digitChar (t.Hour % 10), ':',
            digitChar (t.Minute / 10), digitChar (t.Minute % 10), ':',
            digitChar (t.Second / 10), digitChar (t.Second % 10)]
            ++ formatZone t.Offset) := by
  obtain ⟨hm1, hm12, _, hd, hh, hmi, hs, _⟩ := hv
  have hday : t.Day < 100 := by
    have := daysIn_le t.Month t.Year hm1 hm12
    omega
  simp only [Time.Format, hY, appendInt_four Y hY4, appendInt_two t.Month (by omega),
    appendInt_two t.Day hday, appendInt_two t.Hour (by omega),
    appendInt_two t.Minute (by omega), appendInt_two t.Second (by omega),
    List.cons_append, List.nil_append, List.append_assoc]

/-- Parsing what `Format` wrote gives the time back, without its fraction of
a second, when the year has at most four digits and the offset is a whole
number of minutes of at most 24 hours. -/
theorem Parse_Format (t : Time) (hv : t.Valid) (hy0 : 0 ≤ t.Year) (hy : t.Year ≤ 9999)
    (hmin : t.Offset % 60 = 0) (hoff : t.Offset.natAbs ≤ 86400) :
    Parse t.Format = .ok { t with Nanosecond := 0 } := by
  obtain ⟨Y, hY⟩ := Int.eq_ofNat_of_zero_le hy0
  have hY4 : Y < 10000 := by omega
  rw [Format_written t Y hY hY4 hv]
  obtain ⟨hm1, hm12, hd1, hd, hh, hmi, hs, _⟩ := hv
  have hday : t.Day ≤ 31 := by
    have := daysIn_le t.Month t.Year hm1 hm12
    omega
  have eY : Y / 1000 * 1000 + Y / 100 % 10 * 100 + Y / 10 % 10 * 10 + Y % 10 = Y := by
    omega
  have eM : t.Month / 10 * 10 + t.Month % 10 = t.Month := by omega
  have eD : t.Day / 10 * 10 + t.Day % 10 = t.Day := by omega
  have eH : t.Hour / 10 * 10 + t.Hour % 10 = t.Hour := by omega
  have eMi : t.Minute / 10 * 10 + t.Minute % 10 = t.Minute := by omega
  have eS : t.Second / 10 * 10 + t.Second % 10 = t.Second := by omega
  have hdig : ∀ x ∈ [Y / 1000, Y / 100 % 10, Y / 10 % 10, Y % 10, t.Month / 10,
      t.Month % 10, t.Day / 10, t.Day % 10, t.Hour / 10, t.Hour % 10, t.Minute / 10,
      t.Minute % 10, t.Second / 10, t.Second % 10], x < 10 := by
    intro x hx
    simp only [List.mem_cons, List.mem_singleton, List.not_mem_nil, or_false] at hx
    rcases hx with h | h | h | h | h | h | h | h | h | h | h | h | h | h <;> omega
  have key : ∀ (zone : List Char), parseFraction zone = (0, zone) →
      parseZone zone = .ok (t.Offset, []) →
      Parse (String.mk
          ([digitChar (Y / 1000), digitChar (Y / 100 % 10), digitChar (Y / 10 % 10),
            digitChar (Y % 10), '-', digitChar (t.Month / 10), digitChar (t.Month % 10),
            '-', digitChar (t.Day / 10), digitChar (t.Day % 10), 'T',
            digitChar (t.Hour / 10), digitChar (t.Hour % 10), ':',
            digitChar (t.Minute / 10), digitChar (t.Minute % 10), ':',
            digitChar (t.Second / 10), digitChar (t.Second % 10)] ++ zone))
        = .ok { t with Nanosecond := 0 } := by
    intro zone hfrac hzone
    rw [Parse_written _ _ _ _ _ _ _ _ _ _ _ _ _ _ hdig zone t.Offset hfrac hzone
      (by omega) (by rw [eY, eM, eD, ← hY]; omega) (by omega) (by omega) (by omega)]
    rw [eY, eM, eD, eH, eMi, eS, ← hY]
  by_cases h0 : t.Offset = 0
  · have hz : formatZone t.Offset = ['Z'] := by simp [formatZone, h0]
    rw [hz]
    exact key ['Z'] rfl (by rw [h0]; rfl)
  · have hlt : t.Offset.natAbs / 60 / 60 < 100 := by omega
    rw [formatZone_numeric t.Offset h0 hlt]
    apply key
    · have hsign : ∀ c : Char, c = '-' ∨ c = '+' → ∀ rest,
          parseFraction (c :: rest) = (0, c :: rest) := by
        intro c hc rest
        rcases hc with rfl | rfl <;> cases rest with
        | nil => rfl
        | cons d rest => rfl
      apply hsign
      split
      · exact Or.inl rfl
      · exact Or.inr rfl
    · have hz := parseZone_numeric (if Int.tdiv t.Offset 60 < 0 then '-' else '+')
        (t.Offset.natAbs / 60 / 60 / 10) (t.Offset.natAbs / 60 / 60 % 10)
        (t.Offset.natAbs / 60 % 60 / 10) (t.Offset.natAbs / 60 % 60 % 10)
        (by omega) (by omega) (by omega) (by omega)
        (by split; exact Or.inr rfl; exact Or.inl rfl) (by omega) (by omega)
      rw [hz]
      have hn60 : t.Offset.natAbs % 60 = 0 := by omega
      have hnat : (t.Offset.natAbs / 60 / 60 / 10 * 10 + t.Offset.natAbs / 60 / 60 % 10) * 60
            + (t.Offset.natAbs / 60 % 60 / 10 * 10 + t.Offset.natAbs / 60 % 60 % 10)
          = t.Offset.natAbs / 60 := by omega
      have hval : (if (if Int.tdiv t.Offset 60 < 0 then '-' else '+') = '-'
            then (-1 : Int) else 1)
          * ((((t.Offset.natAbs / 60 / 60 / 10 * 10 + t.Offset.natAbs / 60 / 60 % 10) * 60
              + (t.Offset.natAbs / 60 % 60 / 10 * 10 + t.Offset.natAbs / 60 % 60 % 10)) * 60
              : Nat) : Int) = t.Offset := by
        rw [hnat]
        by_cases hz0 : Int.tdiv t.Offset 60 < 0
        · have hle := (tdiv_sixty_neg_iff t.Offset).mp hz0
          simp only [hz0, if_true]
          omega
        · have hle : ¬ t.Offset ≤ -60 := fun h => hz0 ((tdiv_sixty_neg_iff t.Offset).mpr h)
          have hc : ¬ (('+' : Char) = '-') := by decide
          simp only [hz0, if_false, hc]
          omega
      rw [hval]

end time

namespace time

theorem parseLongYear_some (v : List Char) (y : Int) (rest : List Char)
    (h : parseLongYear v = some (y, rest)) :
    ∃ c0 c1 c2 c3, v = c0 :: c1 :: c2 :: c3 :: rest
      ∧ isDigit c0 = true ∧ isDigit c1 = true ∧ isDigit c2 = true ∧ isDigit c3 = true := by
  rcases v with _ | ⟨c0, _ | ⟨c1, _ | ⟨c2, _ | ⟨c3, r⟩⟩⟩⟩
  · simp [parseLongYear] at h
  · simp [parseLongYear] at h
  · simp [parseLongYear] at h
  · simp [parseLongYear] at h
  · simp only [parseLongYear] at h
    split at h
    · rename_i hd
      simp only [Bool.and_eq_true] at hd
      simp only [Option.some.injEq, Prod.mk.injEq] at h
      exact ⟨c0, c1, c2, c3, by rw [h.2], hd.1.1.1, hd.1.1.2, hd.1.2, hd.2⟩
    · cases h

theorem skip_some (v : List Char) (p : Char) (rest : List Char)
    (h : skip v p = some rest) : v = p :: rest := by
  cases v with
  | nil => simp [skip] at h
  | cons c r =>
    simp only [skip] at h
    split at h
    · rename_i hc
      simp only [Option.some.injEq] at h
      rw [hc, h]
    · cases h

theorem getnum_fixed_some (v : List Char) (n : Nat) (rest : List Char)
    (h : getnum v true = some (n, rest)) :
    ∃ c0 c1, v = c0 :: c1 :: rest ∧ isDigit c0 = true ∧ isDigit c1 = true := by
  rcases v with _ | ⟨c0, _ | ⟨c1, r⟩⟩
  · simp [getnum] at h
  · simp [getnum] at h
  · by_cases h0 : isDigit c0 = true
    · by_cases h1 : isDigit c1 = true
      · simp only [getnum, h0, h1, if_true, Option.some.injEq, Prod.mk.injEq] at h
        exact ⟨c0, c1, by rw [h.2], h0, h1⟩
      · simp [getnum, h0, h1] at h
    · simp [getnum, h0] at h

theorem getnum_free_some (v : List Char) (n : Nat) (rest : List Char)
    (h : getnum v false = some (n, rest)) :
    ∃ ds, v = ds ++ rest ∧ (ds.length = 1 ∨ ds.length = 2)
      ∧ ∀ c ∈ ds, isDigit c = true := by
  rcases v with _ | ⟨c0, _ | ⟨c1, r⟩⟩
  · simp [getnum] at h
  · by_cases h0 : isDigit c0 = true
    · simp only [getnum, h0, if_true, Bool.false_eq_true, if_false, Option.some.injEq,
        Prod.mk.injEq] at h
      exact ⟨[c0], by rw [← h.2]; rfl, Or.inl rfl, by simpa using h0⟩
    · simp [getnum, h0] at h
  · by_cases h0 : isDigit c0 = true
    · by_cases h1 : isDigit c1 = true
      · simp only [getnum, h0, h1, if_true, Option.some.injEq, Prod.mk.injEq] at h
        exact ⟨[c0, c1], by rw [← h.2]; rfl, Or.inr rfl, by simp [h0, h1]⟩
      · simp only [getnum, h0, h1, if_true, Bool.false_eq_true, if_false,
          Option.some.injEq, Prod.mk.injEq] at h
        exact ⟨[c0], by rw [← h.2]; rfl, Or.inl rfl, by simpa using h0⟩
    · simp [getnum, h0] at h

theorem bind_skip_getnum (v : List Char) (p : Char) (fixed : Bool) (n : Nat)
    (rest : List Char)
    (h : (skip v p).bind (fun v => getnum v fixed) = some (n, rest)) :
    ∃ w, v = p :: w ∧ getnum w fixed = some (n, rest) := by
  cases hs : skip v p with
  | none => simp [hs] at h
  | some w =>
    rw [hs] at h
    exact ⟨w, skip_some v p w hs, h⟩

theorem parseFraction_form (v : List Char) :
    ∃ fr, v = fr ++ (parseFraction v).2
      ∧ (fr = [] ∨ ∃ sep digits, fr = sep :: digits ∧ (sep = '.' ∨ sep = ',')
          ∧ digits ≠ [] ∧ ∀ c ∈ digits, isDigit c = true) := by
  rcases v with _ | ⟨c0, _ | ⟨c1, r⟩⟩
  · exact ⟨[], rfl, Or.inl rfl⟩
  · exact ⟨[], rfl, Or.inl rfl⟩
  · by_cases hc : (commaOrPeriod c0 && isDigit c1) = true
    · simp only [parseFraction, hc, if_true]
      simp only [Bool.and_eq_true, commaOrPeriod, Bool.or_eq_true, decide_eq_true_eq] at hc
      refine ⟨c0 :: (c1 :: r).takeWhile isDigit, ?_, Or.inr ⟨c0, _, rfl, hc.1, ?_, ?_⟩⟩
      · rw [List.cons_append, List.takeWhile_append_dropWhile]
      · simp [List.takeWhile, hc.2]
      · intro c hmem
        exact (List.mem_takeWhile_imp hmem)
    · simp only [parseFraction, hc]
      exact ⟨[], rfl, Or.inl rfl⟩

theorem parseZone_ok (v : List Char) (offset : Int) (h : parseZone v = .ok (offset, [])) :
    v = ['Z'] ∨ ∃ sign zh0 zh1 zm0 zm1, v = [sign, zh0, zh1, ':', zm0, zm1]
      ∧ (sign = '+' ∨ sign = '-')
      ∧ ∀ c ∈ [zh0, zh1, zm0, zm1], isDigit c = true := by
  unfold parseZone at h
  split at h
  · simp only [Except.ok.injEq, Prod.mk.injEq] at h
    left
    rw [h.2]
  · rename_i sign h0 h1 colon m0 m1 rest hnz
    right
    split at h
    · cases h
    · rename_i hcolon
      have hcolon' : colon = ':' := by simpa using hcolon
      split at h
      · rename_i hr r1 mm r2 hg1 hg2
        obtain ⟨a, b, hab, ha, hb⟩ := getnum_fixed_some _ _ _ hg1
        obtain ⟨c, d, hcd, hc, hd⟩ := getnum_fixed_some _ _ _ hg2
        simp only [List.cons.injEq] at hab hcd
        obtain ⟨rfl, rfl, _⟩ := hab
        obtain ⟨rfl, rfl, _⟩ := hcd
        split at h
        · cases h
        · split at h
          · cases h
          · split at h
            · simp only [Except.ok.injEq, Prod.mk.injEq] at h
              rename_i hs
              exact ⟨sign, h0, h1, m0, m1, by rw [hcolon', h.2], Or.inl hs,
                by simp [ha, hb, hc, hd]⟩
            · split at h
              · simp only [Except.ok.injEq, Prod.mk.injEq] at h
                rename_i hs
                exact ⟨sign, h0, h1, m0, m1, by rw [hcolon', h.2], Or.inr hs,
                  by simp [ha, hb, hc, hd]⟩
              · cases h
      · cases h
  · cases h

end time

namespace time

/-- A text that `Parse` accepts has the layout's form. -/
theorem Parse_form (s : String) (t : Time) (h : Parse s = .ok t) : spec.LayoutForm s := by
  unfold Parse at h
  split at h
  · cases h
  rename_i year v hy
  split at h
  · cases h
  rename_i month v2 hmo
  split at h
  · cases h
  split at h
  · cases h
  rename_i day v3 hd
  split at h
  · cases h
  rename_i hour v4 hh
  split at h
  · cases h
  split at h
  · cases h
  rename_i min v5 hmi
  split at h
  · cases h
  split at h
  · cases h
  rename_i sec v6 hs
  split at h
  · cases h
  split at h
  · cases h
  rename_i zoneOffset v7 hz
  split at h
  · cases h
  rename_i hv7
  have hv7' : v7 = [] := by simpa using hv7
  subst hv7'
  obtain ⟨y0, y1, y2, y3, hdata, hy0, hy1, hy2, hy3⟩ := parseLongYear_some _ _ _ hy
  obtain ⟨w1, hw1, hg1⟩ := bind_skip_getnum _ _ _ _ _ hmo
  obtain ⟨mo0, mo1, hm, hmo0, hmo1⟩ := getnum_fixed_some _ _ _ hg1
  obtain ⟨w2, hw2, hg2⟩ := bind_skip_getnum _ _ _ _ _ hd
  obtain ⟨d0, d1, hdd, hd0, hd1⟩ := getnum_fixed_some _ _ _ hg2
  obtain ⟨w3, hw3, hg3⟩ := bind_skip_getnum _ _ _ _ _ hh
  obtain ⟨hourDigits, hhd, hlen, hhdig⟩ := getnum_free_some _ _ _ hg3
  obtain ⟨w4, hw4, hg4⟩ := bind_skip_getnum _ _ _ _ _ hmi
  obtain ⟨mi0, mi1, hmm, hmi0, hmi1⟩ := getnum_fixed_some _ _ _ hg4
  obtain ⟨w5, hw5, hg5⟩ := bind_skip_getnum _ _ _ _ _ hs
  obtain ⟨s0, s1, hss, hs0, hs1⟩ := getnum_fixed_some _ _ _ hg5
  obtain ⟨fr, hfr, hfrform⟩ := parseFraction_form v6
  have hzone := parseZone_ok _ _ hz
  generalize (parseFraction v6).2 = zone at hfr hzone
  refine ⟨y0, y1, y2, y3, mo0, mo1, d0, d1, hourDigits, mi0, mi1, s0, s1, fr,
    zone, ?_, ?_, hlen, hfrform, hzone⟩
  · rw [hdata, hw1, hm, hw2, hdd, hw3, hhd, hw4, hmm, hw5, hss, hfr]
    simp [List.append_assoc]
  · intro c hc
    rcases List.mem_append.mp hc with hc | hc
    · simp only [List.mem_cons, List.mem_singleton, List.not_mem_nil, or_false] at hc
      rcases hc with rfl | rfl | rfl | rfl | rfl | rfl | rfl | rfl | rfl | rfl | rfl | rfl <;>
        assumption
    · exact hhdig c hc

end time

/-! ## Lemmas on the feed-side geocode table -/

namespace strings

theorem splitOnP_length (p : Char → Bool) (l : List Char) :
    (l.splitOnP p).length = l.countP p + 1 := by
  induction l with
  | nil => simp [List.splitOnP_nil]
  | cons c l ih =>
    rw [List.splitOnP_cons]
    by_cases hc : p c = true
    · simp [hc, ih]
    · simp [hc, ih]

/-- The number of pieces of a split is one more than the number of
separators. -/
theorem Split_length (v : String) :
    (Split v ' ').length = v.data.count ' ' + 1 := by
  unfold Split
  rw [List.length_map, List.splitOn, splitOnP_length]
  rfl

theorem Split_ne_nil (v : String) : Split v ' ' ≠ [] := by
  intro h
  have := Split_length v
  rw [h] at this
  simp at this

/-- A text without the separator is the only piece of its split. -/
theorem Split_single (v : String) (h : ' ' ∉ v.data) : Split v ' ' = [v] := by
  unfold Split
  rw [List.splitOn, List.splitOnP_eq_single]
  · rfl
  · intro x hx hsp
    have : x = ' ' := by simpa using hsp
    exact h (this ▸ hx)

end strings

namespace atom

/-- The loop of `GetGeocodes` returns when every index it may reach is an
index of `Values`. -/
theorem GetGeocodes_range_returns (g : Geocode) (name : String) (names : List String)
    (k : Nat) (hk : k + names.length ≤ g.Values.length) :
    ∃ r, Geocode.GetGeocodes.range g name names k = .returned r := by
  induction names generalizing k with
  | nil => exact ⟨[], rfl⟩
  | cons value rest ih =>
    simp only [List.length_cons] at hk
    by_cases hv : value = name
    · have hlt : k < g.Values.length := by omega
      exact ⟨strings.Split g.Values[k] ' ', by
        simp [Geocode.GetGeocodes.range, hv, List.getElem?_eq_getElem hlt]⟩
    · obtain ⟨r, hr⟩ := ih (k + 1) (by omega)
      exact ⟨r, by simp [Geocode.GetGeocodes.range, hv, hr]⟩

/-- When the name occurs among the names still to visit, the loop returns
the split of some value, or faults. -/
theorem GetGeocodes_range_mem (g : Geocode) (name : String) (names : List String)
    (k : Nat) (hmem : name ∈ names) :
    Geocode.GetGeocodes.range g name names k ≠ .returned [] := by
  induction names generalizing k with
  | nil => simp at hmem
  | cons value rest ih =>
    by_cases hv : value = name
    · simp only [Geocode.GetGeocodes.range, hv, if_true]
      cases g.Values[k]? with
      | none => simp
      | some v =>
        intro h
        simp only [Outcome.returned.injEq] at h
        exact strings.Split_ne_nil v h
    · have hrest : name ∈ rest := by
        rcases List.mem_cons.mp hmem with h | h
        · exact absurd h.symm hv
        · exact h
      simp only [Geocode.GetGeocodes.range, hv, if_false]
      exact ih (k + 1) hrest

/-- The loop of `GetGeocodes` on the parallel arrays made from a list of
named values: it returns the split of what `Search` finds. -/
theorem GetGeocodes_range_of_list (pre G : List NamedValue) (n : String) :
    Geocode.GetGeocodes.range
        { Names := (pre ++ G).map (fun g => g.ValueName),
          Values := (pre ++ G).map (fun g => g.Value) }
        n (G.map (fun g => g.ValueName)) pre.length
      = if ∃ g ∈ G, g.ValueName = n then
          .returned (strings.Split (shared.Search G n) ' ')
        else .returned [] := by
  induction G generalizing pre with
  | nil => simp [Geocode.GetGeocodes.range]
  | cons x G ih =>
    by_cases hx : x.ValueName = n
    · have hex : ∃ g ∈ x :: G, g.ValueName = n := ⟨x, List.mem_cons_self _ _, hx⟩
      have hget : ((pre ++ x :: G).map (fun g => g.Value))[pre.length]? = some x.Value := by
        rw [List.map_append, List.getElem?_append_right (by simp)]
        simp
      simp only [List.map_cons, Geocode.GetGeocodes.range, hx, if_true, hget,
        shared.Search, hex]
    · have h := ih (pre ++ [x])
      simp only [List.append_assoc, List.singleton_append, List.length_append,
        List.length_singleton] at h
      simp only [List.map_cons, Geocode.GetGeocodes.range, hx, if_false, h,
        shared.Search, List.mem_cons, exists_eq_or_imp, false_or]

end atom

/-! ## Lemmas on the `alert` command -/

namespace captn

theorem Contains_empty (s : String) : strings.Contains s "" = true := by
  simp [strings.Contains]

/-- When every selected entry has a first link whose alert is fetched, the
loop runs to its end and has printed one document per selected entry, in
order. -/
theorem alert_range_complete (lower : Char → Char) (net : atom.Net) (alertType : String)
    (entries : List atom.Entry) (printed : List Bytes)
    (hall : ∀ entry ∈ entries,
      strings.Contains (strings.ToLower lower entry.Event) alertType = true →
      ∃ l ls alert raw, entry.Link = l :: ls
        ∧ l.GetAlert net = .returned (alert, raw, none)) :
    ∃ new, alertAction.range lower net alertType entries printed
        = .returned (printed ++ new, none)
      ∧ List.Forall₂
          (fun entry doc => ∃ l ls alert raw, entry.Link = l :: ls
            ∧ l.GetAlert net = .returned (alert, raw, none) ∧ doc = raw.getD [])
          (entries.filter (fun entry =>
            strings.Contains (strings.ToLower lower entry.Event) alertType))
          new := by
  induction entries generalizing printed with
  | nil => exact ⟨[], by simp [alertAction.range], by simp⟩
  | cons entry rest ih =>
    have hrest : ∀ e ∈ rest,
        strings.Contains (strings.ToLower lower e.Event) alertType = true →
        ∃ l ls alert raw, e.Link = l :: ls
          ∧ l.GetAlert net = .returned (alert, raw, none) :=
      fun e he => hall e (List.mem_cons_of_mem _ he)
    cases hsel : strings.Contains (strings.ToLower lower entry.Event) alertType with
    | false =>
      obtain ⟨new, hrun, hrel⟩ := ih printed hrest
      have hf : (entry :: rest).filter (fun entry =>
            strings.Contains (strings.ToLower lower entry.Event) alertType)
          = rest.filter (fun entry =>
            strings.Contains (strings.ToLower lower entry.Event) alertType) := by
        simp [hsel]
      exact ⟨new, by simp [alertAction.range, hsel, hrun], by rw [hf]; exact hrel⟩
    | true =>
      obtain ⟨l, ls, alert, raw, hlink, hget⟩ := hall entry (List.mem_cons_self _ _) hsel
      obtain ⟨new, hrun, hrel⟩ := ih (printed ++ [raw.getD []]) hrest
      have hf : (entry :: rest).filter (fun entry =>
            strings.Contains (strings.ToLower lower entry.Event) alertType)
          = entry :: rest.filter (fun entry =>
            strings.Contains (strings.ToLower lower entry.Event) alertType) := by
        simp [hsel]
      refine ⟨raw.getD [] :: new, ?_, ?_⟩
      · simp [alertAction.range, hsel, hlink, hget, hrun]
      · rw [hf]
        exact List.Forall₂.cons ⟨l, ls, alert, raw, hlink, hget, rfl⟩ hrel

end captn

/-! ## The aggregation (feed.go lines 33-137) -/

namespace commands

/-- C1: when the directory lists and every file that is not a directory is
readable and parses to an alert with at least one Info block, `feedGenerater`
returns a feed and no error; the feed's `Entries` are the projections of the
files that are not directories, one per file and in listing order, and an
empty listing gives no entries. -/
theorem feedGenerater_one_entry_per_file (s : Server) (w : World) (path : String)
    (files : List FileInfo) (hdir : w.ReadDir path = .ok files)
    (hall : ∀ file ∈ files, file.IsDir = false →
      ∃ xmlData alert, w.ReadFile (path ++ file.Name) = .ok xmlData
        ∧ cap.ParseAlert w.Unmarshal xmlData = .ok alert ∧ alert.Info ≠ []) :
    ∃ feed, feedGenerater s w path = .returned (some feed, none)
      ∧ List.Forall₂
          (fun file entry =>
            ∃ xmlData alert, w.ReadFile (path ++ file.Name) = .ok xmlData
              ∧ cap.ParseAlert w.Unmarshal xmlData = .ok alert
              ∧ feedGenerater.entry s file alert = .returned entry)
          (files.filter (fun file => !file.IsDir)) feed.Entries
      ∧ feed.Entries.length = (files.filter (fun file => !file.IsDir)).length
      ∧ (files = [] → feed.Entries = []) := by
  obtain ⟨new, hrun, hrel⟩ := range_complete s w path files [] hall
  rw [List.nil_append] at hrun
  have hret : ∃ feed, feedGenerater s w path = .returned (some feed, none)
      ∧ feed.Entries = new := by
    simp only [feedGenerater, hdir, hrun]
    exact ⟨_, rfl, rfl⟩
  obtain ⟨feed, hfeed, hentries⟩ := hret
  subst hentries
  refine ⟨feed, hfeed, hrel, hrel.length_eq.symm, ?_⟩
  intro hnil
  subst hnil
  simpa using hrel

/-- Two alerts and a subdirectory give two entries; an empty directory gives none. -/
theorem feedGenerater_one_entry_per_file_witness :
    (∃ feed, feedGenerater sample.server sample.world "/var/lib/capship/alerts/"
        = .returned (some feed, none) ∧ feed.Entries.length = 2)
      ∧ ∃ feed, feedGenerater sample.server sample.world "/var/lib/capship/empty/"
          = .returned (some feed, none) ∧ feed.Entries = [] := by
  constructor
  · obtain ⟨feed, hfeed, _, hlen, _⟩ :=
      feedGenerater_one_entry_per_file sample.server sample.world
        "/var/lib/capship/alerts/" [sample.fileA, sample.dirOld, sample.fileB] rfl
        (by
          intro file hmem hnd
          simp only [List.mem_cons, List.mem_singleton, List.not_mem_nil, or_false] at hmem
          rcases hmem with rfl | rfl | rfl
          · exact ⟨[1], sample.alert, rfl, rfl, by decide⟩
          · exact absurd hnd (by decide)
          · exact ⟨[2], sample.alertB, rfl, rfl, by decide⟩)
    exact ⟨feed, hfeed, hlen⟩
  · obtain ⟨feed, hfeed, _, _, hnil⟩ :=
      feedGenerater_one_entry_per_file sample.server sample.world
        "/var/lib/capship/empty/" [] rfl (by intro file hmem; simp at hmem)
    exact ⟨feed, hfeed, hnil rfl⟩

/-- C2: on a directory listing, when a file that is not a directory fails to
read or to parse, and the files listed before it were skipped as directories
or projected, `feedGenerater` returns that file's error with a nil feed,
however many files came before; a returned feed is non-nil exactly when the
returned error is nil, and a non-nil feed is returned only when every file
that is not a directory was read and parsed. -/
theorem feedGenerater_all_or_nothing (s : Server) (w : World) (path : String)
    (files : List FileInfo) (hdir : w.ReadDir path = .ok files) :
    (∀ pre file post err, files = pre ++ file :: post →
        (∀ f ∈ pre, f.IsDir = true ∨
          ∃ xmlData alert entry, w.ReadFile (path ++ f.Name) = .ok xmlData
            ∧ cap.ParseAlert w.Unmarshal xmlData = .ok alert
            ∧ feedGenerater.entry s f alert = .returned entry) →
        file.IsDir = false →
        (w.ReadFile (path ++ file.Name) = .error err
          ∨ ∃ xmlData, w.ReadFile (path ++ file.Name) = .ok xmlData
              ∧ cap.ParseAlert w.Unmarshal xmlData = .error err) →
        feedGenerater s w path = .returned (none, some err))
      ∧ (∀ feed err, feedGenerater s w path = .returned (feed, err) →
          (feed = none ↔ err ≠ none))
      ∧ (∀ feed err, feedGenerater s w path = .returned (some feed, err) →
          ∀ file ∈ files, file.IsDir = false →
            ∃ xmlData alert, w.ReadFile (path ++ file.Name) = .ok xmlData
              ∧ cap.ParseAlert w.Unmarshal xmlData = .ok alert) := by
  refine ⟨?_, ?_, ?_⟩
  · intro pre file post err hfiles hpre hfile hfail
    have hrun := range_abort s w path pre file post [] err hpre hfile hfail
    rw [← hfiles] at hrun
    simp only [feedGenerater, hdir, hrun]
  · intro feed err h
    simp only [feedGenerater, hdir] at h
    cases hrun : feedGenerater.range s w path files [] with
    | indexOutOfRange => simp [hrun] at h
    | nilDereference => simp [hrun] at h
    | returned r =>
      cases r with
      | error e =>
        simp only [hrun, Outcome.returned.injEq, Prod.mk.injEq] at h
        obtain ⟨h1, h2⟩ := h
        subst h1 h2
        simp
      | ok entries =>
        simp only [hrun, Outcome.returned.injEq, Prod.mk.injEq] at h
        obtain ⟨h1, h2⟩ := h
        subst h1 h2
        simp
  · intro feed err h
    simp only [feedGenerater, hdir] at h
    cases hrun : feedGenerater.range s w path files [] with
    | indexOutOfRange => simp [hrun] at h
    | nilDereference => simp [hrun] at h
    | returned r =>
      cases r with
      | error e => simp [hrun] at h
      | ok entries => exact range_ok_inv s w path files [] entries hrun

/-- A malformed file after a good one: the decoder error and a nil feed. -/
theorem feedGenerater_all_or_nothing_witness :
    feedGenerater sample.server sample.worldBad "/var/lib/capship/alerts/"
      = .returned (none, some { msg := "EOF" }) :=
  (feedGenerater_all_or_nothing sample.server sample.worldBad
      "/var/lib/capship/alerts/" [sample.fileA, sample.fileBad, sample.fileB] rfl).1
    [sample.fileA] sample.fileBad [sample.fileB] { msg := "EOF" } rfl
    (by
      intro f hmem
      simp only [List.mem_singleton] at hmem
      subst hmem
      exact Or.inr ⟨[1], sample.alert, _, rfl, rfl, rfl⟩)
    rfl
    (Or.inr ⟨[], rfl, rfl⟩)

end commands

/-! ## The per-alert projection (feed.go lines 52-108) -/

namespace commands

/-- C3: for an alert with at least one Info block the projected entry copies
`Identifier` to `ID`, `Info[0].Headline` to `Title.Content`, `Sent` to both
`Updated` and `Published`, `Sender` to the name of its single author,
`Info[0].Description` to `Summary.Content`, `Status` and `MsgType` from the
alert, and `Event`, `Effective`, `Expires`, `Urgency`, `Severity`, `Certainty`
from `Info[0]`. -/
theorem entry_copies_fields (s : Server) (file : FileInfo) (alert : cap.Alert)
    (info0 : cap.Info) (rest : List cap.Info) (h : alert.Info = info0 :: rest) :
    ∃ e, feedGenerater.entry s file alert = .returned e
      ∧ e.ID = alert.Identifier
      ∧ e.Title.Content = info0.Headline
      ∧ e.Updated = alert.Sent ∧ e.Published = alert.Sent
      ∧ (∃ p : atom.Person, e.Author = [p] ∧ p.Name = alert.Sender)
      ∧ e.Summary.Content = info0.Description
      ∧ e.Status = alert.Status ∧ e.MsgType = alert.MsgType
      ∧ e.Event = info0.Event ∧ e.Effective = info0.Effective
      ∧ e.Expires = info0.Expires ∧ e.Urgency = info0.Urgency
      ∧ e.Severity = info0.Severity ∧ e.Certainty = info0.Certainty := by
  refine ⟨_, entry_of_first_info s file alert info0 rest h, ?_⟩
  simp

/-- The copied fields of the sample alert. -/
theorem entry_copies_fields_witness :
    ∃ e, feedGenerater.entry sample.server sample.fileA sample.alert = .returned e
      ∧ e.ID = "KSTO1055887203"
      ∧ e.Title.Content = "SEVERE THUNDERSTORM WARNING"
      ∧ e.Updated = "2003-06-17T14:57:00-07:00"
      ∧ e.Published = "2003-06-17T14:57:00-07:00"
      ∧ (∃ p : atom.Person, e.Author = [p] ∧ p.Name = "KSTO@NWS.NOAA.GOV")
      ∧ e.Summary.Content = "A severe thunderstorm over south central Alpine county"
      ∧ e.Status = "Actual" ∧ e.MsgType = "Alert"
      ∧ e.Event = "SEVERE THUNDERSTORM"
      ∧ e.Effective = "2003-06-17T14:57:00-07:00"
      ∧ e.Expires = "2003-06-17T16:00:00-07:00" ∧ e.Urgency = "Immediate"
      ∧ e.Severity = "Severe" ∧ e.Certainty = "Observed" :=
  entry_copies_fields sample.server sample.fileA sample.alert sample.info
    [sample.infoEs] rfl

/-- C4: for an alert with at least one Info block, the projected entry's
`Geocode.Names` and `Geocode.Values` are the `ValueName`s and the `Value`s of
the geocode entries of all areas of `Info[0]`, area by area and in order,
nothing merged; both have as many elements as there are source geocode
entries, and position `i` of both comes from source entry `i`. -/
theorem entry_geocode_parallel (s : Server) (file : FileInfo) (alert : cap.Alert)
    (info0 : cap.Info) (rest : List cap.Info) (h : alert.Info = info0 :: rest) :
    ∃ e, feedGenerater.entry s file alert = .returned e
      ∧ e.Geocode.Names
          = (info0.Area.flatMap (fun a => a.Geocode)).map (fun g => g.ValueName)
      ∧ e.Geocode.Values
          = (info0.Area.flatMap (fun a => a.Geocode)).map (fun g => g.Value)
      ∧ e.Geocode.Names.length = (info0.Area.map (fun a => a.Geocode.length)).sum
      ∧ e.Geocode.Values.length = (info0.Area.map (fun a => a.Geocode.length)).sum
      ∧ ∀ i : Nat,
          e.Geocode.Names[i]?
              = ((info0.Area.flatMap (fun a => a.Geocode))[i]?).map
                  (fun g : cap.NamedValue => g.ValueName)
          ∧ e.Geocode.Values[i]?
              = ((info0.Area.flatMap (fun a => a.Geocode))[i]?).map
                  (fun g : cap.NamedValue => g.Value) := by
  refine ⟨_, entry_of_first_info s file alert info0 rest h, rfl, rfl, ?_, ?_, ?_⟩
  · simp [List.length_flatten, Function.comp_def]
  · simp [List.length_flatten, Function.comp_def]
  · intro i
    exact ⟨List.getElem?_map _ _ _, List.getElem?_map _ _ _⟩

/-- The geocode table of the sample alert, a repeated name kept twice. -/
theorem entry_geocode_parallel_witness :
    ∃ e, feedGenerater.entry sample.server sample.fileA sample.alert = .returned e
      ∧ e.Geocode.Names = ["SAME", "SAME", "UGC"]
      ∧ e.Geocode.Values = ["006109", "006009", "CAZ069"] := by
  obtain ⟨e, he, hn, hv, _⟩ :=
    entry_geocode_parallel sample.server sample.fileA sample.alert sample.info
      [sample.infoEs] rfl
  exact ⟨e, he, hn.trans (by decide), hv.trans (by decide)⟩

/-- C5: for an alert with at least one Info block, the projected entry's
`AreaDesc` is the concatenation, over the areas of `Info[0]` in order, of
`"; "` followed by the area's `AreaDesc`; with an area it starts with `"; "`,
without areas it is empty. -/
theorem entry_areaDesc_leading_separator (s : Server) (file : FileInfo)
    (alert : cap.Alert) (info0 : cap.Info) (rest : List cap.Info)
    (h : alert.Info = info0 :: rest) :
    ∃ e, feedGenerater.entry s file alert = .returned e
      ∧ e.AreaDesc = String.join (info0.Area.map (fun a => "; " ++ a.AreaDesc))
      ∧ (info0.Area ≠ [] → ∃ tail, e.AreaDesc = "; " ++ tail)
      ∧ (info0.Area = [] → e.AreaDesc = "") := by
  refine ⟨_, entry_of_first_info s file alert info0 rest h, rfl, ?_, ?_⟩
  · intro hne
    cases hA : info0.Area with
    | nil => exact absurd hA hne
    | cons a as =>
      exact ⟨a.AreaDesc ++ String.join (as.map (fun a => "; " ++ a.AreaDesc)), by
        simp [join_cons, String.append_assoc]⟩
  · intro hnil
    simp [hnil, String.join]

/-- The area description of the sample alert starts with the separator. -/
theorem entry_areaDesc_leading_separator_witness :
    ∃ e, feedGenerater.entry sample.server sample.fileA sample.alert = .returned e
      ∧ e.AreaDesc = "; Alpine; Amador" := by
  obtain ⟨e, he, hd, _⟩ :=
    entry_areaDesc_leading_separator sample.server sample.fileA sample.alert
      sample.info [sample.infoEs] rfl
  exact ⟨e, he, hd.trans (by decide)⟩

/-- C6: for an alert with at least one Info block, the projected entry's
`Polygon` is the in-order concatenation of the `Polygon` lists of the areas of
`Info[0]` and its `Circle` the in-order concatenation of their `Circle`
lists; the lengths are the sums of the per-area lengths. -/
theorem entry_polygon_circle_concat (s : Server) (file : FileInfo)
    (alert : cap.Alert) (info0 : cap.Info) (rest : List cap.Info)
    (h : alert.Info = info0 :: rest) :
    ∃ e, feedGenerater.entry s file alert = .returned e
      ∧ e.Polygon = info0.Area.flatMap (fun a => a.Polygon)
      ∧ e.Circle = info0.Area.flatMap (fun a => a.Circle)
      ∧ e.Polygon.length = (info0.Area.map (fun a => a.Polygon.length)).sum
      ∧ e.Circle.length = (info0.Area.map (fun a => a.Circle.length)).sum := by
  refine ⟨_, entry_of_first_info s file alert info0 rest h, ?_⟩
  simp [List.flatMap, List.length_flatten, Function.comp_def]

/-- The polygons and circles of the two areas of the sample alert. -/
theorem entry_polygon_circle_concat_witness :
    ∃ e, feedGenerater.entry sample.server sample.fileA sample.alert = .returned e
      ∧ e.Polygon = ["38.47,-120.14 38.34,-119.95 38.47,-120.14"]
      ∧ e.Circle = ["38.5,-120.5 10"] := by
  obtain ⟨e, he, hp, hc, _⟩ :=
    entry_polygon_circle_concat sample.server sample.fileA sample.alert
      sample.info [sample.infoEs] rfl
  exact ⟨e, he, hp.trans (by decide), hc.trans (by decide)⟩

/-- C7: for an alert with at least one Info block, the projected entry's
`Category` list has the length and order of `Info[0].Category`; its `i`-th
element has the `i`-th category code as `Content` and empty `Term`, `Scheme`
and `Label`. -/
theorem entry_category_content_only (s : Server) (file : FileInfo)
    (alert : cap.Alert) (info0 : cap.Info) (rest : List cap.Info)
    (h : alert.Info = info0 :: rest) :
    ∃ e, feedGenerater.entry s file alert = .returned e
      ∧ e.Category.length = info0.Category.length
      ∧ e.Category.map (fun c => c.Content) = info0.Category
      ∧ ∀ c ∈ e.Category, c.Term = "" ∧ c.Scheme = "" ∧ c.Label = "" := by
  refine ⟨_, entry_of_first_info s file alert info0 rest h, ?_⟩
  simp [Function.comp_def]

/-- The two categories of the sample alert. -/
theorem entry_category_content_only_witness :
    ∃ e, feedGenerater.entry sample.server sample.fileA sample.alert = .returned e
      ∧ e.Category.length = 2
      ∧ e.Category.map (fun c => c.Content) = ["Met", "Safety"] := by
  obtain ⟨e, he, hl, hc, _⟩ :=
    entry_category_content_only sample.server sample.fileA sample.alert
      sample.info [sample.infoEs] rfl
  exact ⟨e, he, hl, hc⟩

/-- C8: every projected entry has exactly one link; its `Href` is
`config.HostName ++ "alerts/" ++` the name of the source file and its other
attributes are empty. -/
theorem entry_link_href (s : Server) (file : FileInfo) (alert : cap.Alert)
    (e : atom.Entry) (h : feedGenerater.entry s file alert = .returned e) :
    ∃ l : atom.Link, e.Link = [l]
      ∧ l.Href = s.config.HostName ++ "alerts/" ++ file.Name
      ∧ l.Base = "" ∧ l.Lang = "" ∧ l.Rel = "" ∧ l.Type_ = "" ∧ l.HrefLang = ""
      ∧ l.Title = {} ∧ l.Length = "" := by
  cases hI : alert.Info with
  | nil => simp [feedGenerater.entry, hI] at h
  | cons info0 rest =>
    rw [entry_of_first_info s file alert info0 rest hI] at h
    cases h
    exact ⟨_, rfl, rfl, rfl, rfl, rfl, rfl, rfl, rfl, rfl⟩

/-- The link of the entry made from the file b.xml. -/
theorem entry_link_href_witness :
    ∃ e, feedGenerater.entry sample.server sample.fileB sample.alertB = .returned e
      ∧ ∃ l : atom.Link, e.Link = [l] ∧ l.Href = "http://localhost:8080/alerts/b.xml" := by
  refine ⟨_, rfl, ?_⟩
  obtain ⟨l, hlink, hl, _⟩ :=
    entry_link_href sample.server sample.fileB sample.alertB _ rfl
  exact ⟨l, hlink, hl.trans (by decide)⟩

/-- C9: the projection reads only the alert's `Identifier`, `Sender`, `Sent`,
`Status`, `MsgType` and its first Info block: two alerts that agree on these
(stored under the same file name) have the same projection, whatever further
Info blocks they carry. -/
theorem entry_depends_on_first_info (s : Server) (file : FileInfo)
    (a b : cap.Alert)
    (hId : a.Identifier = b.Identifier) (hSender : a.Sender = b.Sender)
    (hSent : a.Sent = b.Sent) (hStatus : a.Status = b.Status)
    (hMsgType : a.MsgType = b.MsgType) (hInfo : a.Info.head? = b.Info.head?) :
    feedGenerater.entry s file a = feedGenerater.entry s file b := by
  cases ha : a.Info with
  | nil =>
    cases hb : b.Info with
    | nil => simp [feedGenerater.entry, ha, hb]
    | cons i r => simp [ha, hb] at hInfo
  | cons i r =>
    cases hb : b.Info with
    | nil => simp [ha, hb] at hInfo
    | cons j q =>
      have hij : i = j := by simpa [ha, hb] using hInfo
      subst hij
      rw [entry_of_first_info s file a i r ha, entry_of_first_info s file b i q hb,
        hId, hSender, hSent, hStatus, hMsgType]

/-- Two different alerts with the same first Info block project alike. -/
theorem entry_depends_on_first_info_witness :
    sample.alert ≠ sample.alertShort
      ∧ feedGenerater.entry sample.server sample.fileA sample.alert
          = feedGenerater.entry sample.server sample.fileA sample.alertShort :=
  ⟨by decide,
   entry_depends_on_first_info sample.server sample.fileA sample.alert
     sample.alertShort rfl rfl rfl rfl rfl rfl⟩

end commands

/-! ## NamedValue lookup -/

namespace shared

/-- C10: `Search` returns the `Value` of the first entry whose `ValueName` is
exactly `name`, also when later entries carry that name, and `""` when no
entry carries it. -/
theorem Search_first_match (nv : List NamedValue) (name : String) :
    Search nv name
        = ((nv.find? (fun element => decide (element.ValueName = name))).map
            NamedValue.Value).getD ""
      ∧ (∀ pre element post, nv = pre ++ element :: post →
          (∀ e ∈ pre, e.ValueName ≠ name) → element.ValueName = name →
          Search nv name = element.Value)
      ∧ ((∀ e ∈ nv, e.ValueName ≠ name) → Search nv name = "") := by
  refine ⟨Search_eq_find nv name, ?_, ?_⟩
  · intro pre element post hnv hpre hel
    rw [hnv, Search_skip pre (element :: post) name hpre]
    simp [Search, hel]
  · intro hnone
    have := Search_skip nv [] name hnone
    simpa [Search] using this

/-- A repeated name gives its first value; another letter case gives the empty string. -/
theorem Search_first_match_witness :
    Search [⟨"UGC", "CAZ069"⟩, ⟨"SAME", "006109"⟩, ⟨"SAME", "006009"⟩] "SAME" = "006109"
      ∧ Search [⟨"UGC", "CAZ069"⟩, ⟨"SAME", "006109"⟩] "same" = "" :=
  ⟨(Search_first_match [⟨"UGC", "CAZ069"⟩, ⟨"SAME", "006109"⟩, ⟨"SAME", "006009"⟩]
      "SAME").2.1 [⟨"UGC", "CAZ069"⟩] ⟨"SAME", "006109"⟩ [⟨"SAME", "006009"⟩] rfl
      (by decide) rfl,
   (Search_first_match [⟨"UGC", "CAZ069"⟩, ⟨"SAME", "006109"⟩] "same").2.2
      (by decide)⟩

end shared

namespace shared

/-- C11: `SearchAll` returns the `Value`s of exactly the entries whose
`ValueName` is `name`, in list order and with multiplicity (the map of
`Value` over the filter by name), hence nothing when no entry matches; and
`Area.GetGeocodes` returns the same over the area's geocode list. -/
theorem SearchAll_all_matches (nv : List NamedValue) (name : String) (a : cap.Area) :
    SearchAll nv name
        = (nv.filter (fun element => decide (element.ValueName = name))).map
            NamedValue.Value
      ∧ ((∀ e ∈ nv, e.ValueName ≠ name) → SearchAll nv name = [])
      ∧ (a.GetGeocodes name).1
          = (a.Geocode.filter (fun element => decide (element.ValueName = name))).map
              NamedValue.Value := by
  refine ⟨SearchAll_eq nv name, ?_, SearchAll_eq a.Geocode name⟩
  intro hnone
  rw [SearchAll_eq]
  simp only [List.map_eq_nil_iff, List.filter_eq_nil_iff, decide_eq_true_eq]
  exact hnone

/-- A repeated name gives both values in order; an absent name gives nothing. -/
theorem SearchAll_all_matches_witness :
    SearchAll [⟨"SAME", "006109"⟩, ⟨"UGC", "CAZ069"⟩, ⟨"SAME", "006009"⟩] "SAME"
        = ["006109", "006009"]
      ∧ SearchAll [⟨"SAME", "006109"⟩, ⟨"UGC", "CAZ069"⟩] "FIPS6" = [] :=
  ⟨(SearchAll_all_matches [⟨"SAME", "006109"⟩, ⟨"UGC", "CAZ069"⟩, ⟨"SAME", "006009"⟩]
      "SAME" {}).1.trans (by decide),
   (SearchAll_all_matches [⟨"SAME", "006109"⟩, ⟨"UGC", "CAZ069"⟩] "FIPS6" {}).2.1
      (by decide)⟩

end shared

namespace cap

/-- C12: `AddParameter` leaves `Parameter` equal to the old list followed by
the one entry `{ValueName: name, Value: value}` and `AddGeocode` does the
same to `Geocode`: the length grows by one, every earlier position holds the
entry it held, and no other field changes. -/
theorem Add_appends_one (info : Info) (area : Area) (name value : String) :
    ((info.AddParameter name value).Parameter
          = info.Parameter ++ [{ ValueName := name, Value := value }]
        ∧ (info.AddParameter name value).Parameter.length = info.Parameter.length + 1
        ∧ (∀ i, i < info.Parameter.length →
            (info.AddParameter name value).Parameter[i]? = info.Parameter[i]?)
        ∧ { info.AddParameter name value with Parameter := info.Parameter } = info)
      ∧ ((area.AddGeocode name value).Geocode
          = area.Geocode ++ [{ ValueName := name, Value := value }]
        ∧ (area.AddGeocode name value).Geocode.length = area.Geocode.length + 1
        ∧ (∀ i, i < area.Geocode.length →
            (area.AddGeocode name value).Geocode[i]? = area.Geocode[i]?)
        ∧ { area.AddGeocode name value with Geocode := area.Geocode } = area) := by
  refine ⟨⟨rfl, ?_, ?_, rfl⟩, ⟨rfl, ?_, ?_, rfl⟩⟩
  · simp [Info.AddParameter]
  · intro i hi
    simp [Info.AddParameter, List.getElem?_append_left hi]
  · simp [Area.AddGeocode]
  · intro i hi
    simp [Area.AddGeocode, List.getElem?_append_left hi]

/-- Adding a geocode under a name already present keeps the earlier entry. -/
theorem Add_appends_one_witness :
    (sample.info.AddParameter "VTEC" "second").Parameter
        = [{ ValueName := "VTEC", Value := "/O.NEW.KSTO.SV.W.0001/" },
           { ValueName := "VTEC", Value := "second" }]
      ∧ ((({} : Area).AddGeocode "test-name" "1234").AddGeocode "test-name" "5678").Geocode
        = [{ ValueName := "test-name", Value := "1234" },
           { ValueName := "test-name", Value := "5678" }] :=
  ⟨(Add_appends_one sample.info {} "VTEC" "second").1.1,
   (Add_appends_one {} (({} : Area).AddGeocode "test-name" "1234") "test-name"
      "5678").2.1⟩

/-- C15: each accessor returns what the shared lookup returns on the list of
its own block, and leaves its receiver as it was: `Info.GetParameter` is
`Search` on `info.Parameter`, `Area.GetGeocode` is `Search` on `area.Geocode`,
`Area.GetGeocodes` is `SearchAll` on `area.Geocode`, and `Entry.GetParameter`
is `Search` on `entry.Parameter`. -/
theorem accessors_delegate (info : Info) (area : Area) (entry : atom.Entry)
    (name : String) :
    info.GetParameter name = (shared.Search info.Parameter name, info)
      ∧ area.GetGeocode name = (shared.Search area.Geocode name, area)
      ∧ area.GetGeocodes name = (shared.SearchAll area.Geocode name, area)
      ∧ entry.GetParameter name = (shared.Search entry.Parameter name, entry) :=
  ⟨rfl, rfl, rfl, rfl⟩

end cap

namespace atom

/-- C13: on a `Geocode` with as many `Values` as `Names`, `GetGeocodes`
returns the split on the space character of `Values[i]` for the smallest `i`
with `Names[i] = name` (later occurrences of the name play no part), and the
empty sequence when no name equals `name`. -/
theorem GetGeocodes_first_name (g : Geocode) (name : String)
    (hlen : g.Names.length = g.Values.length) :
    (∀ i : Nat, g.Names[i]? = some name → (∀ j : Nat, j < i → g.Names[j]? ≠ some name) →
        ∃ v, g.Values[i]? = some v
          ∧ g.GetGeocodes name = .returned (strings.Split v ' '))
      ∧ (name ∉ g.Names → g.GetGeocodes name = .returned []) := by
  refine ⟨?_, fun hnone => GetGeocodes_range_none g name g.Names 0 hnone⟩
  intro i hi hfirst
  have hlt : i < g.Values.length := by
    have : i < g.Names.length := by
      rcases Nat.lt_or_ge i g.Names.length with h | h
      · exact h
      · rw [List.getElem?_eq_none h] at hi
        exact absurd hi (by simp)
    omega
  refine ⟨g.Values[i], List.getElem?_eq_getElem hlt, ?_⟩
  have h := GetGeocodes_range_first g name g.Names 0 i hi hfirst
  simpa [Geocode.GetGeocodes, List.getElem?_eq_getElem hlt] using h

/-- A name that occurs twice: only the value at its first position is split. -/
theorem GetGeocodes_first_name_witness :
    Geocode.GetGeocodes
        { Names := ["FIPS6", "UGC", "UGC"],
          Values := ["002185 002186", "AKZ204 AKZ205", "AKZ999"] } "UGC"
      = .returned ["AKZ204", "AKZ205"] := by
  obtain ⟨v, hv, hres⟩ :=
    (GetGeocodes_first_name
      { Names := ["FIPS6", "UGC", "UGC"],
        Values := ["002185 002186", "AKZ204 AKZ205", "AKZ999"] } "UGC" rfl).1 1 rfl
      (by
        intro j hj
        have hj0 : j = 0 := by omega
        subst hj0
        decide)
  have hv' : v = "AKZ204 AKZ205" := by
    have : some "AKZ204 AKZ205" = some v := hv
    exact (Option.some.inj this).symm
  subst hv'
  exact hres.trans (by decide)

/-- C14: splitting undoes joining with single spaces: when the first entry
named `n` of a `Geocode` has as value a non-empty list of tokens, none
containing a space, joined by single spaces, `GetGeocodes n` returns exactly
those tokens in order. -/
theorem GetGeocodes_split_join (g : Geocode) (n : String) (i : Nat)
    (tokens : List String) (hi : g.Names[i]? = some n)
    (hfirst : ∀ j : Nat, j < i → g.Names[j]? ≠ some n)
    (hvalue : g.Values[i]? = some (" ".intercalate tokens))
    (hne : tokens ≠ []) (hsep : ∀ t ∈ tokens, ' ' ∉ t.data) :
    g.GetGeocodes n = .returned tokens := by
  have h := GetGeocodes_range_first g n g.Names 0 i hi hfirst
  simp only [Nat.zero_add, hvalue] at h
  rw [Geocode.GetGeocodes, h, strings.Split_intercalate tokens hne hsep]

/-- The two FIPS6 codes of an entry come back from their space-joined value. -/
theorem GetGeocodes_split_join_witness :
    " ".intercalate ["002185", "002186"] = "002185 002186"
      ∧ Geocode.GetGeocodes
          { Names := ["FIPS6", "UGC"], Values := ["002185 002186", "AKZ204"] } "FIPS6"
        = .returned ["002185", "002186"] :=
  ⟨by decide,
   GetGeocodes_split_join
     { Names := ["FIPS6", "UGC"], Values := ["002185 002186", "AKZ204"] } "FIPS6" 0
     ["002185", "002186"] rfl (by intro j hj; omega) (by decide) (by decide)
     (by decide)⟩

end atom

/-! ## The time codec -/

namespace shared

/-- C16, as the claim states it, fails: a zone offset that is not a whole
number of minutes comes back truncated, and a year of five digits or an
offset of a hundred hours is written in a text that `TimeParse` rejects. -/
theorem Time_TimeParse_roundtrip_fails :
    (sample.localMeanTime.Valid
        ∧ Time sample.localMeanTime = "1900-01-01T00:00:00+00:19"
        ∧ ∃ t, TimeParse (Time sample.localMeanTime) = .ok t
            ∧ t.Offset = 1140 ∧ t.Offset ≠ sample.localMeanTime.Offset)
      ∧ (sample.year10000.Valid
        ∧ Time sample.year10000 = "10000-01-01T00:00:00+01:00"
        ∧ ∃ err, TimeParse (Time sample.year10000) = .error err)
      ∧ (sample.farEast.Valid
        ∧ Time sample.farEast = "2003-06-11T22:39:00+100:00"
        ∧ ∃ err, TimeParse (Time sample.farEast) = .error err) :=
  ⟨⟨by decide, by decide, _, rfl, rfl, by decide⟩,
   ⟨by decide, by decide, _, rfl⟩,
   ⟨by decide, by decide, _, rfl⟩⟩

/-- C16, amended: for a calendar time whose year is within 0..9999 and whose
zone offset is a whole number of minutes of at most 24 hours,
`TimeParse (Time t)` succeeds and the parsed time has the year, month, day,
hour, minute, second and offset of `t`. -/
theorem Time_TimeParse_roundtrip (t : time.Time) (hv : t.Valid) (hy0 : 0 ≤ t.Year)
    (hy : t.Year ≤ 9999) (hmin : t.Offset % 60 = 0) (hoff : t.Offset.natAbs ≤ 86400) :
    ∃ t', TimeParse (Time t) = .ok t'
      ∧ t'.Year = t.Year ∧ t'.Month = t.Month ∧ t'.Day = t.Day ∧ t'.Hour = t.Hour
      ∧ t'.Minute = t.Minute ∧ t'.Second = t.Second ∧ t'.Offset = t.Offset :=
  ⟨{ t with Nanosecond := 0 }, time.Parse_Format t hv hy0 hy hmin hoff,
    rfl, rfl, rfl, rfl, rfl, rfl, rfl⟩

/-- The evening of 11 June 2003, seven hours west of UTC, comes back. -/
theorem Time_TimeParse_roundtrip_witness :
    Time sample.pacificTime = "2003-06-11T22:39:00-07:00"
      ∧ ∃ t', TimeParse (Time sample.pacificTime) = .ok t'
        ∧ t'.Year = 2003 ∧ t'.Month = 6 ∧ t'.Day = 11 ∧ t'.Hour = 22
        ∧ t'.Minute = 39 ∧ t'.Second = 0 ∧ t'.Offset = -25200 :=
  ⟨by decide,
   Time_TimeParse_roundtrip sample.pacificTime (by decide) (by decide) (by decide)
     (by decide) (by decide)⟩

/-- C17, as the claim states it, fails: a text of the canonical form with a
valid date and time of day is rejected when the hours of its written offset
exceed 24 or the minutes exceed 60. -/
theorem TimeParse_rejects_large_offset :
    (spec.isOffsetTimestamp "2003-06-11T22:39:00+25:00" = true
        ∧ TimeParse "2003-06-11T22:39:00+25:00"
            = .error { msg := "parsing time: time zone offset hour out of range" })
      ∧ (spec.isOffsetTimestamp "2003-06-11T22:39:00+05:61" = true
        ∧ TimeParse "2003-06-11T22:39:00+05:61"
            = .error { msg := "parsing time: time zone offset minute out of range" })
      ∧ TimeParse "2003-06-11T22:39:00+24:60"
          = .ok { Year := 2003, Month := 6, Day := 11, Hour := 22, Minute := 39,
                  Second := 0, Nanosecond := 0, Offset := 90000 } :=
  ⟨⟨by decide, rfl⟩, ⟨by decide, rfl⟩, rfl⟩

/-- C17, amended: a text of the form `YYYY-MM-DDTHH:MM:SS±hh:mm` (digits at
the letters) that denotes a date of the calendar and a time of day, and whose
written offset has at most 24 hours and at most 60 minutes, parses, and the
parsed time has the written year, month, day, hour, minute and second and the
written offset, negative after `-`. -/
theorem TimeParse_canonical
    (y0 y1 y2 y3 mo0 mo1 d0 d1 h0 h1 mi0 mi1 s0 s1 zh0 zh1 zm0 zm1 sign : Char)
    (hdig : ∀ c ∈ [y0, y1, y2, y3, mo0, mo1, d0, d1, h0, h1, mi0, mi1, s0, s1,
      zh0, zh1, zm0, zm1], time.isDigit c = true)
    (hsign : sign = '+' ∨ sign = '-')
    (hmonth : 1 ≤ time.digitVal mo0 * 10 + time.digitVal mo1
      ∧ time.digitVal mo0 * 10 + time.digitVal mo1 ≤ 12)
    (hday : 1 ≤ time.digitVal d0 * 10 + time.digitVal d1
      ∧ time.digitVal d0 * 10 + time.digitVal d1
          ≤ time.daysIn (time.digitVal mo0 * 10 + time.digitVal mo1)
              ((time.digitVal y0 * 1000 + time.digitVal y1 * 100 + time.digitVal y2 * 10
                + time.digitVal y3 : Nat) : Int))
    (hhour : time.digitVal h0 * 10 + time.digitVal h1 < 24)
    (hminute : time.digitVal mi0 * 10 + time.digitVal mi1 < 60)
    (hsecond : time.digitVal s0 * 10 + time.digitVal s1 < 60)
    (hzh : time.digitVal zh0 * 10 + time.digitVal zh1 ≤ 24)
    (hzm : time.digitVal zm0 * 10 + time.digitVal zm1 ≤ 60) :
    TimeParse
        (String.mk [y0, y1, y2, y3, '-', mo0, mo1, '-', d0, d1, 'T', h0, h1, ':',
          mi0, mi1, ':', s0, s1, sign, zh0, zh1, ':', zm0, zm1])
      = .ok
          { Year := ((time.digitVal y0 * 1000 + time.digitVal y1 * 100
              + time.digitVal y2 * 10 + time.digitVal y3 : Nat) : Int),
            Month := time.digitVal mo0 * 10 + time.digitVal mo1,
            Day := time.digitVal d0 * 10 + time.digitVal d1,
            Hour := time.digitVal h0 * 10 + time.digitVal h1,
            Minute := time.digitVal mi0 * 10 + time.digitVal mi1,
            Second := time.digitVal s0 * 10 + time.digitVal s1,
            Nanosecond := 0,
            Offset := (if sign = '-' then -1 else 1)
              * ((((time.digitVal zh0 * 10 + time.digitVal zh1) * 60
                  + (time.digitVal zm0 * 10 + time.digitVal zm1)) * 60 : Nat) : Int) } := by
  have hd : ∀ c, c ∈ [y0, y1, y2, y3, mo0, mo1, d0, d1, h0, h1, mi0, mi1, s0, s1,
      zh0, zh1, zm0, zm1] → time.isDigit c = true := hdig
  have e : ∀ c, time.isDigit c = true → c = time.digitChar (time.digitVal c) :=
    fun c hc => (time.digitChar_digitVal c hc).symm
  have l : ∀ c, time.isDigit c = true → time.digitVal c < 10 := time.digitVal_lt
  have i0 := hd y0 (by simp)
  have i1 := hd y1 (by simp)
  have i2 := hd y2 (by simp)
  have i3 := hd y3 (by simp)
  have i4 := hd mo0 (by simp)
  have i5 := hd mo1 (by simp)
  have i6 := hd d0 (by simp)
  have i7 := hd d1 (by simp)
  have i8 := hd h0 (by simp)
  have i9 := hd h1 (by simp)
  have i10 := hd mi0 (by simp)
  have i11 := hd mi1 (by simp)
  have i12 := hd s0 (by simp)
  have i13 := hd s1 (by simp)
  have i14 := hd zh0 (by simp)
  have i15 := hd zh1 (by simp)
  have i16 := hd zm0 (by simp)
  have i17 := hd zm1 (by simp)
  have hlist : [y0, y1, y2, y3, '-', mo0, mo1, '-', d0, d1, 'T', h0, h1, ':',
        mi0, mi1, ':', s0, s1, sign, zh0, zh1, ':', zm0, zm1]
      = [time.digitChar (time.digitVal y0), time.digitChar (time.digitVal y1),
          time.digitChar (time.digitVal y2), time.digitChar (time.digitVal y3), '-',
          time.digitChar (time.digitVal mo0), time.digitChar (time.digitVal mo1), '-',
          time.digitChar (time.digitVal d0), time.digitChar (time.digitVal d1), 'T',
          time.digitChar (time.digitVal h0), time.digitChar (time.digitVal h1), ':',
          time.digitChar (time.digitVal mi0), time.digitChar (time.digitVal mi1), ':',
          time.digitChar (time.digitVal s0), time.digitChar (time.digitVal s1)]
        ++ [sign, time.digitChar (time.digitVal zh0), time.digitChar (time.digitVal zh1),
          ':', time.digitChar (time.digitVal zm0), time.digitChar (time.digitVal zm1)] := by
    rw [← e y0 i0, ← e y1 i1, ← e y2 i2, ← e y3 i3, ← e mo0 i4, ← e mo1 i5, ← e d0 i6,
      ← e d1 i7, ← e h0 i8, ← e h1 i9, ← e mi0 i10, ← e mi1 i11, ← e s0 i12, ← e s1 i13,
      ← e zh0 i14, ← e zh1 i15, ← e zm0 i16, ← e zm1 i17]
    rfl
  rw [TimeParse, hlist]
  apply time.Parse_written
  · intro x hx
    simp only [List.mem_cons, List.mem_singleton, List.not_mem_nil, or_false] at hx
    rcases hx with h | h | h | h | h | h | h | h | h | h | h | h | h | h <;>
      (rw [h]; apply l; assumption)
  · rcases hsign with rfl | rfl <;> rfl
  · exact time.parseZone_numeric sign _ _ _ _ (l _ i14) (l _ i15) (l _ i16) (l _ i17)
      hsign hzh hzm
  · exact hmonth
  · exact hday
  · exact hhour
  · exact hminute
  · exact hsecond

/-- The timestamp of the package test parses to 11 June 2003, 22:39:00, one
hour east of UTC. -/
theorem TimeParse_canonical_witness :
    TimeParse "2003-06-11T22:39:00+01:00"
      = .ok { Year := 2003, Month := 6, Day := 11, Hour := 22, Minute := 39, Second := 0,
              Nanosecond := 0, Offset := 3600 } :=
  (TimeParse_canonical '2' '0' '0' '3' '0' '6' '1' '1' '2' '2' '3' '9' '0' '0' '0' '1'
    '0' '0' '+' (by decide) (by decide) (by decide) (by decide) (by decide) (by decide)
    (by decide) (by decide) (by decide)).trans rfl

end shared

namespace shared

/-- C18, as the claim states it, fails: `TimeParse` accepts texts without an
explicit `±hh:mm` offset or with other than the canonical fields: a `Z` in
place of the offset, a fraction after the seconds, an hour of one digit. -/
theorem TimeParse_accepts_other_texts :
    (("2003-06-11T22:39:00Z" : TimeStr) ≠ ""
        ∧ spec.isOffsetTimestamp "2003-06-11T22:39:00Z" = false
        ∧ TimeParse "2003-06-11T22:39:00Z" = .ok sample.utcTime)
      ∧ (("2003-06-11T22:39:00.5-07:00" : TimeStr) ≠ ""
        ∧ spec.isOffsetTimestamp "2003-06-11T22:39:00.5-07:00" = false
        ∧ TimeParse "2003-06-11T22:39:00.5-07:00"
            = .ok { sample.pacificTime with Nanosecond := 500000000 })
      ∧ (("2003-06-11T2:39:00-07:00" : TimeStr) ≠ ""
        ∧ spec.isOffsetTimestamp "2003-06-11T2:39:00-07:00" = false
        ∧ TimeParse "2003-06-11T2:39:00-07:00" = .ok { sample.pacificTime with Hour := 2 }) :=
  ⟨⟨by decide, by decide, rfl⟩, ⟨by decide, by decide, rfl⟩, ⟨by decide, by decide, rfl⟩⟩

/-- C18, amended: `TimeParse` fails with an error, and yields no time, on
every text that is not of the form that the layout admits: four digits, `-`,
two digits, `-`, two digits, `T`, an hour of one or two digits, `:`, two
digits, `:`, two digits, an optional fraction of a second, then `Z` or
`±hh:mm`. -/
theorem TimeParse_rejects_outside_layout (s : TimeStr) :
    (¬ spec.LayoutForm s → ∃ err, TimeParse s = .error err)
      ∧ (∀ t, TimeParse s = .ok t → spec.LayoutForm s) := by
  refine ⟨?_, fun t h => time.Parse_form s t h⟩
  intro hnot
  cases h : TimeParse s with
  | error err => exact ⟨err, rfl⟩
  | ok t => exact absurd (time.Parse_form s t h) hnot

/-- A date and a time of day separated by a space instead of `T` are
rejected. -/
theorem TimeParse_rejects_outside_layout_witness :
    ∃ err, TimeParse "2003-06-11 22:39:00+01:00" = .error err :=
  (TimeParse_rejects_outside_layout "2003-06-11 22:39:00+01:00").1
    (by
      rintro ⟨y0, y1, y2, y3, mo0, mo1, d0, d1, hour, mi0, mi1, s0, s1, frac, zone,
        hdata, _⟩
      have hs : ("2003-06-11 22:39:00+01:00" : String).data
          = ['2', '0', '0', '3', '-', '0', '6', '-', '1', '1', ' ', '2', '2', ':', '3',
             '9', ':', '0', '0', '+', '0', '1', ':', '0', '0'] := rfl
      rw [hs] at hdata
      simp only [List.cons_append, List.cons.injEq] at hdata
      exact absurd hdata.2.2.2.2.2.2.2.2.2.2.1 (by decide))

/-- C19, as the claim states it, fails: for the offset zero `Time` writes the
letter `Z`, not `+00:00`; and a year of five digits or an offset of a hundred
hours leaves the shape as well. -/
theorem Time_writes_Z_for_utc :
    (sample.utcTime.Valid ∧ sample.utcTime.Offset = 0
        ∧ Time sample.utcTime = "2003-06-11T22:39:00Z"
        ∧ spec.isOffsetTimestamp (Time sample.utcTime) = false)
      ∧ (sample.year10000.Valid
        ∧ spec.isOffsetTimestamp (Time sample.year10000) = false)
      ∧ (sample.farEast.Valid
        ∧ spec.isOffsetTimestamp (Time sample.farEast) = false) :=
  ⟨⟨by decide, rfl, by decide, by decide⟩, ⟨by decide, by decide⟩,
   ⟨by decide, by decide⟩⟩

/-- C19, amended: for a calendar time whose year is within 0..9999 and whose
zone offset is below a hundred hours, `Time t` has the shape
`YYYY-MM-DDTHH:MM:SS±hh:mm` when the offset is not zero, and the shape
`YYYY-MM-DDTHH:MM:SSZ` when it is zero. -/
theorem Time_shape (t : time.Time) (hv : t.Valid) (hy0 : 0 ≤ t.Year)
    (hy : t.Year ≤ 9999) (hoff : t.Offset.natAbs < 360000) :
    (t.Offset ≠ 0 → spec.isOffsetTimestamp (Time t) = true)
      ∧ (t.Offset = 0 → spec.isZuluTimestamp (Time t) = true) := by
  obtain ⟨Y, hY⟩ := Int.eq_ofNat_of_zero_le hy0
  have hY4 : Y < 10000 := by omega
  have hform := time.Format_written t Y hY hY4 hv
  obtain ⟨hm1, hm12, hd1, hd, hh, hmi, hs, _⟩ := hv
  have hday : t.Day ≤ 31 := by
    have := time.daysIn_le t.Month t.Year hm1 hm12
    omega
  have two : ∀ n, n < 100 → time.isDigit (time.digitChar (n / 10)) = true
      ∧ time.isDigit (time.digitChar (n % 10)) = true :=
    fun n h => ⟨time.digitChar_isDigit _ (by omega), time.digitChar_isDigit _ (by omega)⟩
  have a0 := time.digitChar_isDigit (Y / 1000) (by omega)
  have a1 := time.digitChar_isDigit (Y / 100 % 10) (by omega)
  have a2 := time.digitChar_isDigit (Y / 10 % 10) (by omega)
  have a3 := time.digitChar_isDigit (Y % 10) (by omega)
  obtain ⟨b0, b1⟩ := two t.Month (by omega)
  obtain ⟨c0, c1⟩ := two t.Day (by omega)
  obtain ⟨e0, e1⟩ := two t.Hour (by omega)
  obtain ⟨f0, f1⟩ := two t.Minute (by omega)
  obtain ⟨g0, g1⟩ := two t.Second (by omega)
  constructor
  · intro hne
    obtain ⟨z0, z1⟩ := two (t.Offset.natAbs / 60 / 60) (by omega)
    obtain ⟨z2, z3⟩ := two (t.Offset.natAbs / 60 % 60) (by omega)
    rw [Time, hform, time.formatZone_numeric t.Offset hne (by omega)]
    by_cases hz : Int.tdiv t.Offset 60 < 0
    · simp [spec.isOffsetTimestamp, hz, a0, a1, a2, a3, b0, b1, c0, c1, e0, e1, f0, f1,
        g0, g1, z0, z1, z2, z3]
    · simp [spec.isOffsetTimestamp, hz, a0, a1, a2, a3, b0, b1, c0, c1, e0, e1, f0, f1,
        g0, g1, z0, z1, z2, z3]
  · intro h0
    have hz : time.formatZone t.Offset = ['Z'] := by simp [time.formatZone, h0]
    rw [Time, hform, hz]
    simp [spec.isZuluTimestamp, a0, a1, a2, a3, b0, b1, c0, c1, e0, e1, f0, f1, g0, g1]

/-- The two shapes on the sample times: a numeric offset west of UTC, and
`Z` for UTC. -/
theorem Time_shape_witness :
    spec.isOffsetTimestamp (Time sample.pacificTime) = true
      ∧ spec.isZuluTimestamp (Time sample.utcTime) = true :=
  ⟨(Time_shape sample.pacificTime (by decide) (by decide) (by decide) (by decide)).1
      (by decide),
   (Time_shape sample.utcTime (by decide) (by decide) (by decide) (by decide)).2 rfl⟩

end shared

/-! ## The upload handler (server.go lines 102-129) -/

namespace commands

/-- C20 on the code: the alert store holds `a.xml` with six bytes and an
upload of two bytes under the same name succeeds (nothing is written to the
response); the stored file then holds the two new bytes followed by the last
four old ones, not the new content alone. An upload at least as long as the
old content does replace it. -/
theorem uploadHandler_keeps_tail_of_longer_file :
    sample.disk.files "/var/lib/capship/alerts/a.xml" = some [97, 98, 99, 100, 101, 102]
      ∧ (sample.server.uploadHandler sample.decode sample.disk {} sample.shortUpload).2 = {}
      ∧ (sample.server.uploadHandler sample.decode sample.disk {} sample.shortUpload).1.files
          "/var/lib/capship/alerts/a.xml" = some [120, 121, 99, 100, 101, 102]
      ∧ (sample.server.uploadHandler sample.decode sample.disk {} sample.shortUpload).1.files
          "/var/lib/capship/alerts/a.xml" ≠ some [120, 121]
      ∧ (sample.server.uploadHandler sample.decode sample.disk {} sample.longUpload).1.files
          "/var/lib/capship/alerts/a.xml" = some [49, 50, 51, 52, 53, 54, 55, 56] :=
  ⟨by decide, by decide, by decide, by decide, by decide⟩

end commands

/-! ## The HTTP handlers (server.go) -/

namespace commands

/-- C21: an upload whose body is longer than `config.MaxUploadSize` is
answered with an error response (status 400 and the message of the failed
read of the form) and the handler returns before it opens any file: the disk
is as it was. -/
theorem uploadHandler_rejects_oversize (s : Server)
    (decode : Bytes → Except GoError (List FormFile)) (d : Disk) (r : Request)
    (hbig : s.config.MaxUploadSize < (r.Body.length : Int)) :
    (s.uploadHandler decode d {} r).1 = d
      ∧ (s.uploadHandler decode d {} r).2.status = some StatusBadRequest
      ∧ ∃ errText, (s.uploadHandler decode d {} r).2.body
          = errText ++ " - Max filesize: " ++ toString s.config.MaxUploadSize ++ "b" := by
  refine ⟨?_, ?_, "http: request body too large", ?_⟩ <;>
    simp [Server.uploadHandler, ParseMultipartForm, hbig, Server.writeError,
      ResponseWriter.WriteHeader, ResponseWriter.Write]

/-- Eight bytes sent to a server that accepts four: status 400, and the
stored file keeps its six bytes. -/
theorem uploadHandler_rejects_oversize_witness :
    (sample.smallServer.uploadHandler sample.decode sample.disk {} sample.longUpload).2.status
        = some 400
      ∧ (sample.smallServer.uploadHandler sample.decode sample.disk {}
            sample.longUpload).1.files "/var/lib/capship/alerts/a.xml"
          = some [97, 98, 99, 100, 101, 102] := by
  obtain ⟨hdisk, hstatus, _⟩ :=
    uploadHandler_rejects_oversize sample.smallServer sample.decode sample.disk
      sample.longUpload (by decide)
  exact ⟨hstatus, by rw [hdisk]; decide⟩

/-- C22 on the code: a request for `/cap/missing.xml`, which names no stored
alert, makes the read fail with the not-found error of the file system, and
the handler leaves the response untouched: no status, no body, so that the
caller is sent status 200 with an empty body, as for a success. -/
theorem pullHandler_missing_is_answered_200 :
    sample.disk.ReadFile "/var/lib/capship/alerts/missing.xml"
        = .error { msg := "open /var/lib/capship/alerts/missing.xml: no such file or directory" }
      ∧ sample.server.pullHandler sample.disk {} sample.pullMissing = {}
      ∧ (sample.server.pullHandler sample.disk {} sample.pullMissing).finishRequest
          = { status := some 200, body := "" }
      ∧ (sample.server.pullHandler sample.disk {} sample.pullStored).finishRequest
          = { status := some 200, body := "abcdef" } :=
  ⟨rfl, by decide, by decide, by decide⟩

/-- C30 on the code: `writeError` called with status 500 writes status 400
(the body is the message); so an upload that fails while the file is opened
is answered with 400, not with 500. -/
theorem writeError_always_writes_400 :
    (sample.server.writeError {} "disk full" StatusInternalServerError).status = some 400
      ∧ (sample.server.writeError {} "disk full" StatusInternalServerError).status
          ≠ some StatusInternalServerError
      ∧ (sample.server.writeError {} "disk full" StatusInternalServerError).body = "disk full"
      ∧ (sample.server.uploadHandler sample.decode sample.readOnlyDisk {}
            sample.shortUpload).2
          = { status := some 400,
              body := "open /var/lib/capship/alerts/a.xml: permission denied" } :=
  ⟨by decide, by decide, by decide, by decide⟩

/-- C25 on the code: a directory whose single file reads and parses to an
alert without Info block makes `feedGenerater` fault on `alert.Info[0]`: it
returns neither a feed nor an error. -/
theorem feedGenerater_faults_without_info :
    sample.worldNoInfo.ReadDir "/var/lib/capship/alerts/" = .ok [sample.fileA]
      ∧ sample.worldNoInfo.ReadFile "/var/lib/capship/alerts/a.xml" = .ok [3]
      ∧ cap.ParseAlert sample.worldNoInfo.Unmarshal [3] = .ok sample.alertNoInfo
      ∧ sample.alertNoInfo.Info = []
      ∧ feedGenerater sample.server sample.worldNoInfo "/var/lib/capship/alerts/"
          = .indexOutOfRange
      ∧ ∀ r, feedGenerater sample.server sample.worldNoInfo "/var/lib/capship/alerts/"
          ≠ .returned r :=
  ⟨rfl, rfl, rfl, rfl, by decide, fun r h => by
    have h2 : feedGenerater sample.server sample.worldNoInfo "/var/lib/capship/alerts/"
        = .indexOutOfRange := by decide
    rw [h2] at h
    cases h⟩

/-- C29: the projected entry has no parameters, whatever `Info[0].Parameter`
holds, so `GetParameter` on it returns the empty string for every name. -/
theorem entry_has_no_parameters (s : Server) (file : FileInfo) (alert : cap.Alert)
    (e : atom.Entry) (h : feedGenerater.entry s file alert = .returned e) :
    e.Parameter = [] ∧ ∀ name, (e.GetParameter name).1 = "" := by
  cases hI : alert.Info with
  | nil => simp [feedGenerater.entry, hI] at h
  | cons info0 rest =>
    rw [entry_of_first_info s file alert info0 rest hI] at h
    cases h
    exact ⟨rfl, fun name => rfl⟩

/-- The sample alert carries a VTEC parameter; its entry does not. -/
theorem entry_has_no_parameters_witness :
    shared.Search sample.info.Parameter "VTEC" = "/O.NEW.KSTO.SV.W.0001/"
      ∧ ∃ e, feedGenerater.entry sample.server sample.fileA sample.alert = .returned e
        ∧ e.Parameter = [] ∧ (e.GetParameter "VTEC").1 = "" := by
  refine ⟨by decide, _, rfl, ?_⟩
  obtain ⟨hp, hg⟩ :=
    entry_has_no_parameters sample.server sample.fileA sample.alert _ rfl
  exact ⟨hp, hg "VTEC"⟩

end commands

/-! ## The client (atom.go, captn.go) -/

namespace atom

/-- C24: `handleHTTPResponse` checks in this order: a non-nil `err` is
returned as it is, whatever the response (nil too); otherwise a status other
than 200 gives the error `HTTP status code: <code>`; otherwise a
`ContentLength` of zero gives the error `No content`. Whenever an error is
returned the body is nil, and a body is returned only with a nil error, from
a response of status 200 and non-zero `ContentLength`. -/
theorem handleHTTPResponse_order (r : Option Response) (err : Option GoError) :
    (∀ e, err = some e → handleHTTPResponse r err = .returned (none, some e))
      ∧ (∀ resp, err = none → r = some resp → resp.StatusCode ≠ 200 →
          handleHTTPResponse r err
            = .returned (none, some { msg := "HTTP status code: " ++ toString resp.StatusCode }))
      ∧ (∀ resp, err = none → r = some resp → resp.StatusCode = 200 →
          resp.ContentLength = 0 →
          handleHTTPResponse r err = .returned (none, some { msg := "No content" }))
      ∧ (∀ body e, handleHTTPResponse r err = .returned (body, some e) → body = none)
      ∧ (∀ body e, handleHTTPResponse r err = .returned (some body, e) →
          e = none ∧ err = none
            ∧ ∃ resp, r = some resp ∧ resp.StatusCode = 200 ∧ resp.ContentLength ≠ 0
              ∧ resp.Body = .ok body) := by
  refine ⟨?_, ?_, ?_, ?_, ?_⟩
  · intro e he
    simp [handleHTTPResponse, he]
  · intro resp he hr hs
    simp [handleHTTPResponse, he, hr, hs]
  · intro resp he hr hs hc
    simp [handleHTTPResponse, he, hr, hs, hc]
  · intro body e h
    cases err with
    | some e0 =>
      simp only [handleHTTPResponse, Outcome.returned.injEq, Prod.mk.injEq] at h
      exact h.1.symm
    | none =>
      cases r with
      | none => simp [handleHTTPResponse] at h
      | some resp =>
        simp only [handleHTTPResponse] at h
        split at h
        · simp only [Outcome.returned.injEq, Prod.mk.injEq] at h
          exact h.1.symm
        · split at h
          · simp only [Outcome.returned.injEq, Prod.mk.injEq] at h
            exact h.1.symm
          · split at h
            · simp only [Outcome.returned.injEq, Prod.mk.injEq] at h
              exact h.1.symm
            · simp at h
  · intro body e h
    cases err with
    | some e0 => simp [handleHTTPResponse] at h
    | none =>
      cases r with
      | none => simp [handleHTTPResponse] at h
      | some resp =>
        simp only [handleHTTPResponse] at h
        split at h
        · simp at h
        · rename_i hs
          split at h
          · simp at h
          · rename_i hc
            split at h
            · simp at h
            · rename_i b hb
              simp only [Outcome.returned.injEq, Prod.mk.injEq, Option.some.injEq] at h
              refine ⟨h.2.symm, rfl, resp, rfl, ?_, hc, ?_⟩
              · simpa using hs
              · rw [hb, h.1]

/-- The three cases of the package tests. -/
theorem handleHTTPResponse_order_witness :
    handleHTTPResponse none (some { msg := "prexisting error" })
        = .returned (none, some { msg := "prexisting error" })
      ∧ handleHTTPResponse (some { StatusCode := 400 }) none
        = .returned (none, some { msg := "HTTP status code: 400" })
      ∧ handleHTTPResponse (some { StatusCode := 200, ContentLength := 0 }) none
        = .returned (none, some { msg := "No content" }) :=
  ⟨(handleHTTPResponse_order none (some { msg := "prexisting error" })).1 _ rfl,
   (handleHTTPResponse_order (some { StatusCode := 400 }) none).2.1 _ rfl rfl (by decide),
   (handleHTTPResponse_order (some { StatusCode := 200, ContentLength := 0 }) none).2.2.1
     _ rfl rfl rfl rfl⟩

/-- C26: on a `Geocode` with at least as many `Values` as `Names`, every
lookup of `Values[index]` by `GetGeocodes` is in range and the call returns a
sequence; the `Geocode` of an entry built by `feedGenerater` has as many
`Values` as `Names`, so `GetGeocodes` on it returns for every name. -/
theorem GetGeocodes_index_safe (g : Geocode) (name : String) (s : commands.Server)
    (file : commands.FileInfo) (alert : cap.Alert) :
    (g.Names.length ≤ g.Values.length → ∃ r, g.GetGeocodes name = .returned r)
      ∧ (∀ e, commands.feedGenerater.entry s file alert = .returned e →
          e.Geocode.Names.length = e.Geocode.Values.length
            ∧ ∃ r, e.Geocode.GetGeocodes name = .returned r) := by
  refine ⟨fun hlen => GetGeocodes_range_returns g name g.Names 0 (by omega), ?_⟩
  intro e he
  have hlen : e.Geocode.Names.length = e.Geocode.Values.length := by
    cases hI : alert.Info with
    | nil => simp [commands.feedGenerater.entry, hI] at he
    | cons info0 rest =>
      rw [commands.entry_of_first_info s file alert info0 rest hI] at he
      cases he
      simp only [List.length_map]
  exact ⟨hlen, GetGeocodes_range_returns e.Geocode name e.Geocode.Names 0 (by omega)⟩

/-- A table with a spare value is safe; a table with a missing value is not:
the lookup of its last name faults. -/
theorem GetGeocodes_index_safe_witness :
    (∃ r, Geocode.GetGeocodes { Names := ["UGC"], Values := ["AKZ204", "spare"] } "UGC"
        = .returned r)
      ∧ Geocode.GetGeocodes { Names := ["FIPS6", "UGC"], Values := ["002185"] } "UGC"
        = .indexOutOfRange :=
  ⟨(GetGeocodes_index_safe { Names := ["UGC"], Values := ["AKZ204", "spare"] } "UGC"
      sample.server sample.fileA sample.alert).1 (by decide),
   by decide⟩

/-- C27: on a `Geocode` with as many `Values` as `Names`, `GetGeocodes name`
is the empty sequence exactly when no name equals `name`; when a name
matches, the result is not empty (it is `[""]` for an empty value) and has
one element more than the matched value has space characters. -/
theorem GetGeocodes_empty_iff (g : Geocode) (name : String)
    (hlen : g.Names.length = g.Values.length) :
    (g.GetGeocodes name = .returned [] ↔ name ∉ g.Names)
      ∧ (∀ i : Nat, g.Names[i]? = some name →
          (∀ j : Nat, j < i → g.Names[j]? ≠ some name) →
          ∃ v r, g.Values[i]? = some v ∧ g.GetGeocodes name = .returned r
            ∧ r ≠ [] ∧ r.length = v.data.count ' ' + 1 ∧ (v = "" → r = [""])) := by
  constructor
  · constructor
    · intro h hmem
      exact GetGeocodes_range_mem g name g.Names 0 hmem h
    · intro hnone
      exact GetGeocodes_range_none g name g.Names 0 hnone
  · intro i hi hfirst
    have hlt : i < g.Values.length := by
      have : i < g.Names.length := by
        rcases Nat.lt_or_ge i g.Names.length with h | h
        · exact h
        · rw [List.getElem?_eq_none h] at hi
          exact absurd hi (by simp)
      omega
    have h := GetGeocodes_range_first g name g.Names 0 i hi hfirst
    simp only [Nat.zero_add, List.getElem?_eq_getElem hlt] at h
    refine ⟨g.Values[i], strings.Split g.Values[i] ' ', List.getElem?_eq_getElem hlt, h,
      strings.Split_ne_nil _, strings.Split_length _, ?_⟩
    intro hv
    rw [hv]
    rfl

/-- An empty value gives the one-element sequence of the empty string; a
value with two spaces gives three elements. -/
theorem GetGeocodes_empty_iff_witness :
    Geocode.GetGeocodes { Names := ["UGC", "FIPS6"], Values := ["", "1 2 3"] } "UGC"
        = .returned [""]
      ∧ ∃ r, Geocode.GetGeocodes { Names := ["UGC", "FIPS6"], Values := ["", "1 2 3"] }
          "FIPS6" = .returned r ∧ r.length = 3 := by
  obtain ⟨v, r, hv, hr, _, _, hempty⟩ :=
    (GetGeocodes_empty_iff { Names := ["UGC", "FIPS6"], Values := ["", "1 2 3"] } "UGC"
      rfl).2 0 rfl (by intro j hj; omega)
  have hv' : v = "" := (Option.some.inj hv).symm
  refine ⟨by rw [hr, hempty hv'], ?_⟩
  exact ⟨["1", "2", "3"], by decide, rfl⟩

/-- C28: for an alert with at least one Info block, with `G` the
concatenation of the geocode lists of the areas of `Info[0]`: `GetGeocodes n`
on the projected entry returns the space-split of `Search G n` when some
entry of `G` is named `n`, and the empty sequence otherwise; it agrees with
`SearchAll G n` when `G` has exactly one entry named `n` and the value of
that entry contains no space. -/
theorem GetGeocodes_after_projection (s : commands.Server) (file : commands.FileInfo)
    (alert : cap.Alert) (info0 : cap.Info) (rest : List cap.Info)
    (h : alert.Info = info0 :: rest) (n : String) :
    ∃ e, commands.feedGenerater.entry s file alert = .returned e
      ∧ ((∃ g ∈ info0.Area.flatMap (fun a => a.Geocode), g.ValueName = n) →
          e.Geocode.GetGeocodes n
            = .returned
                (strings.Split (shared.Search (info0.Area.flatMap (fun a => a.Geocode)) n) ' '))
      ∧ ((∀ g ∈ info0.Area.flatMap (fun a => a.Geocode), g.ValueName ≠ n) →
          e.Geocode.GetGeocodes n = .returned [])
      ∧ (∀ x : NamedValue,
          (info0.Area.flatMap (fun a => a.Geocode)).filter
              (fun g => decide (g.ValueName = n)) = [x] →
          ' ' ∉ x.Value.data →
          e.Geocode.GetGeocodes n
            = .returned (shared.SearchAll (info0.Area.flatMap (fun a => a.Geocode)) n)) := by
  refine ⟨_, commands.entry_of_first_info s file alert info0 rest h, ?_⟩
  have key := GetGeocodes_range_of_list [] (info0.Area.flatMap (fun a => a.Geocode)) n
  simp only [List.nil_append, List.length_nil] at key
  have hrun : ∀ r, (if ∃ g ∈ info0.Area.flatMap (fun a => a.Geocode), g.ValueName = n then
        (Outcome.returned
          (strings.Split (shared.Search (info0.Area.flatMap (fun a => a.Geocode)) n) ' ')
          : Outcome (List String))
        else .returned []) = r →
      Geocode.GetGeocodes
        { Names := ((info0.Area.map (fun a => a.Geocode)).flatten).map (fun g => g.ValueName),
          Values := ((info0.Area.map (fun a => a.Geocode)).flatten).map (fun g => g.Value) } n
        = r := by
    intro r hr
    rw [← hr, ← key]
    rfl
  refine ⟨?_, ?_, ?_⟩
  · intro hex
    exact hrun _ (by rw [if_pos hex])
  · intro hnone
    have hno : ¬ ∃ g ∈ info0.Area.flatMap (fun a => a.Geocode), g.ValueName = n :=
      fun ⟨g, hg, hgn⟩ => hnone g hg hgn
    exact hrun _ (by rw [if_neg hno])
  · intro x hx hsp
    have hmem : x ∈ (info0.Area.flatMap (fun a => a.Geocode)).filter
        (fun g => decide (g.ValueName = n)) := by rw [hx]; simp
    have hxG := (List.mem_filter.mp hmem).1
    have hxn : x.ValueName = n := by simpa using (List.mem_filter.mp hmem).2
    have hex : ∃ g ∈ info0.Area.flatMap (fun a => a.Geocode), g.ValueName = n :=
      ⟨x, hxG, hxn⟩
    have hsearch : shared.Search (info0.Area.flatMap (fun a => a.Geocode)) n = x.Value := by
      rw [shared.Search_eq_head_filter, hx]
      rfl
    have hall : shared.SearchAll (info0.Area.flatMap (fun a => a.Geocode)) n = [x.Value] := by
      rw [shared.SearchAll_eq, hx]
      rfl
    rw [hall]
    exact hrun _ (by rw [if_pos hex, hsearch, strings.Split_single _ hsp])

/-- On the sample alert: the repeated name SAME gives the first value only,
where `SearchAll` gives both; the single name UGC gives what `SearchAll`
gives. -/
theorem GetGeocodes_after_projection_witness :
    ∃ e, commands.feedGenerater.entry sample.server sample.fileA sample.alert = .returned e
      ∧ e.Geocode.GetGeocodes "SAME" = .returned ["006109"]
      ∧ e.Geocode.GetGeocodes "UGC" = .returned ["CAZ069"]
      ∧ e.Geocode.GetGeocodes "FIPS6" = .returned [] := by
  obtain ⟨e, he, hsome, hnone, hone⟩ :=
    GetGeocodes_after_projection sample.server sample.fileA sample.alert sample.info
      [sample.infoEs] rfl "SAME"
  obtain ⟨e2, he2, _, _, hone2⟩ :=
    GetGeocodes_after_projection sample.server sample.fileA sample.alert sample.info
      [sample.infoEs] rfl "UGC"
  obtain ⟨e3, he3, _, hnone3, _⟩ :=
    GetGeocodes_after_projection sample.server sample.fileA sample.alert sample.info
      [sample.infoEs] rfl "FIPS6"
  have e12 : e2 = e := Outcome.returned.inj (he2.symm.trans he)
  have e13 : e3 = e := Outcome.returned.inj (he3.symm.trans he)
  rw [e12] at hone2
  rw [e13] at hnone3
  refine ⟨e, he, ?_, ?_, ?_⟩
  · rw [hsome (by decide)]
    decide
  · rw [hone2 { ValueName := "UGC", Value := "CAZ069" } (by decide) (by decide)]
    decide
  · exact hnone3 (by decide)

end atom

namespace captn

/-- C23: when the feed is fetched and every selected entry has a first link
whose alert is fetched, the `alert` command prints, in feed order, the alerts
of exactly the entries whose `Event`, lower-cased, contains the lower-cased
TYPE, and returns no error; without TYPE (the empty string) every entry of
the feed is selected. -/
theorem alert_selects_matching (lower : Char → Char) (net : atom.Net) (args : List String)
    (atomFeed : String) (feed : atom.Feed) (body : Option Bytes)
    (hfeed : atom.GetFeedFrom net atomFeed = .returned (some feed, body, none))
    (hall : ∀ entry ∈ feed.Entries,
      strings.Contains (strings.ToLower lower entry.Event)
          (strings.ToLower lower (args.getD 0 "")) = true →
      ∃ l ls alert raw, entry.Link = l :: ls
        ∧ l.GetAlert net = .returned (alert, raw, none)) :
    ∃ printed, alertAction lower net args atomFeed = .returned (printed, none)
      ∧ List.Forall₂
          (fun entry doc => ∃ l ls alert raw, entry.Link = l :: ls
            ∧ l.GetAlert net = .returned (alert, raw, none) ∧ doc = raw.getD [])
          (feed.Entries.filter (fun entry =>
            strings.Contains (strings.ToLower lower entry.Event)
              (strings.ToLower lower (args.getD 0 ""))))
          printed
      ∧ (args.getD 0 "" = "" →
          feed.Entries.filter (fun entry =>
            strings.Contains (strings.ToLower lower entry.Event)
              (strings.ToLower lower (args.getD 0 ""))) = feed.Entries) := by
  obtain ⟨new, hrun, hrel⟩ :=
    alert_range_complete lower net (strings.ToLower lower (args.getD 0 "")) feed.Entries []
      hall
  refine ⟨new, ?_, hrel, ?_⟩
  · simp only [alertAction, hfeed, hrun, List.nil_append]
  · intro hempty
    rw [hempty]
    have hlow : strings.ToLower lower "" = "" := rfl
    rw [hlow]
    simp [Contains_empty]

/-- On the sample feed, `alert FLOOD` prints the first and the third alert,
and `alert` without TYPE prints all three. -/
theorem alert_selects_matching_witness :
    alertAction Char.toLower sample.net ["FLOOD"] "http://nws/feed"
        = .returned ([[1], [3]], none)
      ∧ ∃ printed, alertAction Char.toLower sample.net [] "http://nws/feed"
          = .returned (printed, none) ∧ printed.length = 3 := by
  refine ⟨by decide, ?_⟩
  obtain ⟨printed, hrun, hrel, hall⟩ :=
    alert_selects_matching Char.toLower sample.net [] "http://nws/feed" sample.nwsFeed
      (some [0]) (by decide)
      (by
        intro entry hmem _
        have hm : entry ∈ sample.nwsFeed.Entries := hmem
        simp only [sample.nwsFeed, List.mem_cons, List.mem_singleton, List.not_mem_nil,
          or_false] at hm
        rcases hm with rfl | rfl | rfl
        · exact ⟨_, [], some {}, some [1], rfl, by decide⟩
        · exact ⟨_, [], some {}, some [2], rfl, by decide⟩
        · exact ⟨_, [], some {}, some [3], rfl, by decide⟩)
  refine ⟨printed, hrun, ?_⟩
  rw [hall rfl] at hrel
  exact hrel.length_eq.symm

end captn
